import Mathlib

/-!
Verification of the configuration-resolution engine in `src/configs/__init__.py`
(class `Config`): the recursive reference resolver (`recursively_parse_references`),
the object binder (`parse_object`), the fixed-point checker
(`does_this_still_need_parsing`), the instantiator (`instantiate_objects`) and the
driver (`fetch`).

Embedding notes.
* Python dicts are modelled as association lists of `String × Val` in insertion
  order; dict assignment `d[k] = v` replaces the value at the first occurrence of
  `k` (keeping its position) or appends, exactly like a Python dict.  Keys of
  dicts produced by `json.load` are duplicate-free; where a proof needs this it
  carries an explicit `nodupB`/`wfs` hypothesis.
* `parse_object` mutates the dict passed to it in place (`object_config['object_'] = ...`).
  To make this visible, the resolver `parseRefsP` returns a pair: its first
  component is the returned output tree, the second is the value the input tree
  has after the call (the in-place mutations applied).
* The module universe is a function `env : String → Option (String → Bool)`:
  `env m = none` means `__import__` raises (module not found); otherwise
  `env m = some M` and `M c` tells whether `getattr` finds class `c`.
  A bound class handle is the `Val.handle m c` constructor, a null handle
  (binding failure) is Python's `None`, i.e. `Val.null`.
* A constructor call `v(**args)` produces `Val.inst id m c args`, where `id` is a
  running counter of constructor invocations and `args` records the keyword
  arguments passed; the instantiator also threads a trace of `(module, class)`
  constructor calls, so invocation counts and order are observable.
* The file system is `fs : String → Option Val`; the `$NAME$` directory
  placeholder substitution of `load_json_file` is folded into this abstraction
  (it only rewrites the name that is looked up).
* Python exceptions are `Except Err`; `Err.fuel` is a modelling artifact for the
  recursion budget (the source can genuinely diverge on cyclic references, which
  the spec acknowledges).  Numeric literals are restricted to integers.
-/

/-- A Python value as it occurs in the configuration trees: JSON data,
plus bound class handles (`parse_object`) and live instances (`instantiate_objects`). -/
inductive Val where
  | null : Val
  | bool : Bool → Val
  | int : Int → Val
  | str : String → Val
  | list : List Val → Val
  | dict : List (String × Val) → Val
  | handle : String → String → Val
  | inst : Nat → String → String → List (String × Val) → Val

mutual

/-- Decidable equality on `Val` (the automatic derivation does not support the
nested list-of-pairs occurrence). -/
def decEqVal : (a b : Val) → Decidable (a = b)
  | .null, .null => isTrue rfl
  | .bool x, .bool y =>
      if h : x = y then isTrue (by rw [h]) else isFalse (fun e => h (by cases e; rfl))
  | .int x, .int y =>
      if h : x = y then isTrue (by rw [h]) else isFalse (fun e => h (by cases e; rfl))
  | .str x, .str y =>
      if h : x = y then isTrue (by rw [h]) else isFalse (fun e => h (by cases e; rfl))
  | .list xs, .list ys =>
      match decEqValL xs ys with
      | isTrue h => isTrue (by rw [h])
      | isFalse h => isFalse (fun e => h (by cases e; rfl))
  | .dict xs, .dict ys =>
      match decEqEntL xs ys with
      | isTrue h => isTrue (by rw [h])
      | isFalse h => isFalse (fun e => h (by cases e; rfl))
  | .handle m c, .handle m' c' =>
      if h : m = m' ∧ c = c' then isTrue (by rw [h.1, h.2])
      else isFalse (fun e => h (by cases e; exact ⟨rfl, rfl⟩))
  | .inst i m c a, .inst i' m' c' a' =>
      match decEqEntL a a' with
      | isTrue h4 =>
          if h : i = i' ∧ m = m' ∧ c = c' then isTrue (by rw [h.1, h.2.1, h.2.2, h4])
          else isFalse (fun e => h (by cases e; exact ⟨rfl, rfl, rfl⟩))
      | isFalse h4 => isFalse (fun e => h4 (by cases e; rfl))
  | .null, .bool _ | .null, .int _ | .null, .str _ | .null, .list _
  | .null, .dict _ | .null, .handle _ _ | .null, .inst _ _ _ _
  | .bool _, .null | .bool _, .int _ | .bool _, .str _ | .bool _, .list _
  | .bool _, .dict _ | .bool _, .handle _ _ | .bool _, .inst _ _ _ _
  | .int _, .null | .int _, .bool _ | .int _, .str _ | .int _, .list _
  | .int _, .dict _ | .int _, .handle _ _ | .int _, .inst _ _ _ _
  | .str _, .null | .str _, .bool _ | .str _, .int _ | .str _, .list _
  | .str _, .dict _ | .str _, .handle _ _ | .str _, .inst _ _ _ _
  | .list _, .null | .list _, .bool _ | .list _, .int _ | .list _, .str _
  | .list _, .dict _ | .list _, .handle _ _ | .list _, .inst _ _ _ _
  | .dict _, .null | .dict _, .bool _ | .dict _, .int _ | .dict _, .str _
  | .dict _, .list _ | .dict _, .handle _ _ | .dict _, .inst _ _ _ _
  | .handle _ _, .null | .handle _ _, .bool _ | .handle _ _, .int _
  | .handle _ _, .str _ | .handle _ _, .list _ | .handle _ _, .dict _
  | .handle _ _, .inst _ _ _ _
  | .inst _ _ _ _, .null | .inst _ _ _ _, .bool _ | .inst _ _ _ _, .int _
  | .inst _ _ _ _, .str _ | .inst _ _ _ _, .list _ | .inst _ _ _ _, .dict _
  | .inst _ _ _ _, .handle _ _ => isFalse (fun e => Val.noConfusion e)

/-- Decidable equality on lists of `Val`. -/
def decEqValL : (a b : List Val) → Decidable (a = b)
  | [], [] => isTrue rfl
  | [], _ :: _ => isFalse (fun e => List.noConfusion e)
  | _ :: _, [] => isFalse (fun e => List.noConfusion e)
  | x :: xs, y :: ys =>
      match decEqVal x y with
      | isTrue h1 =>
          match decEqValL xs ys with
          | isTrue h2 => isTrue (by rw [h1, h2])
          | isFalse h2 => isFalse (fun e => h2 (by cases e; rfl))
      | isFalse h1 => isFalse (fun e => h1 (by cases e; rfl))

/-- Decidable equality on association lists of `String × Val`. -/
def decEqEntL : (a b : List (String × Val)) → Decidable (a = b)
  | [], [] => isTrue rfl
  | [], _ :: _ => isFalse (fun e => List.noConfusion e)
  | _ :: _, [] => isFalse (fun e => List.noConfusion e)
  | (k, v) :: xs, (k', v') :: ys =>
      match decEqVal v v' with
      | isTrue h1 =>
          if hk : k = k' then
            match decEqEntL xs ys with
            | isTrue h2 => isTrue (by rw [hk, h1, h2])
            | isFalse h2 => isFalse (fun e => h2 (by cases e; rfl))
          else isFalse (fun e => hk (by cases e; rfl))
      | isFalse h1 => isFalse (fun e => h1 (by cases e; rfl))

end

instance : DecidableEq Val := decEqVal

/-- Python exceptions raised by the code under verification. -/
inductive Err where
  | keyErr : String → Err
  | attrErr : Err
  | typeErr : Err
  | fileErr : String → Err
  | moduleErr : String → Err
  | fuel : Err
deriving DecidableEq, Repr


/-- Decidable equality on `Except`, for concrete evaluation of results. -/
instance {ε α : Type} [DecidableEq ε] [DecidableEq α] : DecidableEq (Except ε α)
  | .ok a, .ok b =>
      if h : a = b then isTrue (by rw [h]) else isFalse (fun e => h (by cases e; rfl))
  | .error a, .error b =>
      if h : a = b then isTrue (by rw [h]) else isFalse (fun e => h (by cases e; rfl))
  | .ok _, .error _ => isFalse (fun e => Except.noConfusion e)
  | .error _, .ok _ => isFalse (fun e => Except.noConfusion e)

/-- First-occurrence lookup in an association list (Python `d[k]` read). -/
def lookupKey (k : String) : List (String × Val) → Option Val
  | [] => none
  | (k', v) :: rest => if k' = k then some v else lookupKey k rest

/-- Python `d[k] = v`: replace the value at the first occurrence of `k`
(keeping its position), or append a new entry. -/
def setKey : List (String × Val) → String → Val → List (String × Val)
  | [], k, v => [(k, v)]
  | (k', w) :: rest, k, v =>
      if k' = k then (k, v) :: rest else (k', w) :: setKey rest k v

/-- The splice loop `for kk, vv in tmp.items(): output_config[kk] = vv`:
assign every entry of `l` into `o` in order. -/
def foldSet (o l : List (String × Val)) : List (String × Val) :=
  l.foldl (fun o kv => setKey o kv.1 kv.2) o

/-- Python `d.pop(k, None)`: drop the entry for `k`. -/
def removeKey (l : List (String × Val)) (k : String) : List (String × Val) :=
  l.filter (fun kv => kv.1 ≠ k)

/-- Python `d[k]` raising `KeyError` when the key is absent. -/
def getKey (k : String) (l : List (String × Val)) : Except Err Val :=
  match lookupKey k l with
  | some v => .ok v
  | none => .error (.keyErr k)

/-- Coerce to a string (Python raises `TypeError` on misuse otherwise). -/
def asStr : Val → Except Err String
  | .str s => .ok s
  | _ => .error .typeErr

/-- Python `.items()` on something that must be a dict (`AttributeError` otherwise). -/
def asEntries : Val → Except Err (List (String × Val))
  | .dict l => .ok l
  | _ => .error .attrErr

/-- True when the pattern list occurs contiguously in the other list
(Python substring containment `pat in s`). -/
def infixChars (pat : List Char) : List Char → Bool
  | [] => pat.isEmpty
  | c :: rest => pat.isPrefixOf (c :: rest) || infixChars pat rest

/-- Python `'object_' not in v` (negated here: containment): key membership for
dicts, element membership for lists, substring test for strings, `TypeError`
for anything else. -/
def containsObjKey : Val → Except Err Bool
  | .dict l => .ok (l.any (fun kv => kv.1 == "object_"))
  | .list xs => .ok (xs.any (fun x => decide (x = .str "object_")))
  | .str s => .ok (infixChars "object_".data s.data)
  | _ => .error .typeErr

mutual

/-- Shallow embedding of `Config.does_this_still_need_parsing`
(`.items()` on a non-dict raises `AttributeError`). -/
def needsParsingB : Val → Except Err Bool
  | .dict l => npGo l
  | _ => .error .attrErr

/-- Loop body of `Config.does_this_still_need_parsing` over the remaining
items: any `reference` key, or an `object` key whose value does not contain
`object_`, reports true; dict values are checked recursively. -/
def npGo : List (String × Val) → Except Err Bool
  | [] => .ok false
  | (k, v) :: rest =>
      if k = "reference" then .ok true
      else do
        let earlyTrue ←
          if k = "object" then do
            let b ← containsObjKey v
            (.ok (b = false) : Except Err Bool)
          else .ok false
        if earlyTrue then .ok true
        else
          match v with
          | .dict _ => do
              let b' ← needsParsingB v
              if b' then .ok true else npGo rest
          | _ => npGo rest

end

/-- Shallow embedding of `Config.load_json_file`.  The `$NAME$` placeholder
rewriting is folded into the abstract file system `fs`;
a non-string file name makes the source's `in` test raise `TypeError`. -/
def loadJsonFile (fs : String → Option Val) : Val → Except Err Val
  | .str s =>
      match fs s with
      | some v => .ok v
      | none => .error (.fileErr s)
  | _ => .error .typeErr

/-- Shallow embedding of `Config.parse_object`: look up `module` and `class`,
then import the module (hard failure when missing), `getattr` the class, attach it
under `object_` — or attach Python `None` and print a diagnostic when the class
is not found (`AttributeError` is caught).  The input dict is mutated in place
in the source; the returned list is that mutated dict. -/
def parseObject (env : String → Option (String → Bool)) (o : List (String × Val)) :
    Except Err (List (String × Val)) := do
  let mv ← getKey "module" o
  let cv ← getKey "class" o
  let m ← asStr mv
  let M ← match env m with
    | some M => .ok M
    | none => .error (.moduleErr m)
  let c ← asStr cv
  .ok (setKey o "object_" (if M c then .handle m c else .null))

/-- One step of the source's override loop:
`tmp['object']['args'][k] = w`, with the exceptions Python would raise. -/
def applyOv1 (tmp : Val) (k : String) (w : Val) : Except Err Val :=
  match tmp with
  | .dict t => do
      let ov ← getKey "object" t
      match ov with
      | .dict o => do
          let av ← getKey "args" o
          match av with
          | .dict a =>
              .ok (.dict (setKey t "object"
                    (.dict (setKey o "args" (.dict (setKey a k w))))))
          | _ => .error .typeErr
      | _ => .error .typeErr
  | _ => .error .typeErr

/-- The source's `for ok, ov in config['override'].items()` loop applied to the
freshly loaded target `tmp` (the body is only evaluated for a non-empty override). -/
def applyOverrides (tmp : Val) : List (String × Val) → Except Err Val
  | [] => .ok tmp
  | kv :: rest => do
      let t' ← applyOv1 tmp kv.1 kv.2
      applyOverrides t' rest

/-- One iteration of the loop body of `Config.recursively_parse_references`,
for the item `(k, v)` of the input dict `cfg`, acting on the working copy `out`
(`output_config`).  `rec` is the recursive call at the remaining fuel.  Returns
the updated working copy together with the value the *input* item `v` has
become after the iteration (`parse_object` mutates nested dicts in place). -/
def parseEntry (fs : String → Option Val) (env : String → Option (String → Bool))
    (rec : Val → Except Err (Val × Val)) (cfg : List (String × Val))
    (k : String) (v : Val) (out : List (String × Val)) :
    Except Err (List (String × Val) × Val) :=
  if k.startsWith "__" then .ok (out, v)
  else
    match v with
    | .dict d =>
      if k = "object" then do
        let d₁ ← parseObject env d
        let (r, vin) ← rec (.dict d₁)
        .ok (setKey out k r, vin)
      else do
        let (r, vin) ← rec (.dict d)
        .ok (setKey out k r, vin)
    | _ =>
      if k = "reference" then do
        let tmp ← loadJsonFile fs v
        let ovv ← getKey "override" cfg
        let ov ← asEntries ovv
        let tmp₁ ← applyOverrides tmp ov
        let (tmp₂, _) ← rec tmp₁
        let t ← asEntries tmp₂
        .ok (removeKey (setKey (foldSet out t) "source" v) "reference", v)
      else .ok (out, v)

/-- Loop of `Config.recursively_parse_references` over the items of the
input dict `cfg`; `out` is the working copy (`output_config`, initially a deep
copy of `cfg`).  Returns the final `output_config` together with the list the
*input* items have become after the call. -/
def parseEntries (fs : String → Option Val) (env : String → Option (String → Bool))
    (rec : Val → Except Err (Val × Val)) (cfg : List (String × Val)) :
    List (String × Val) → List (String × Val) →
    Except Err (List (String × Val) × List (String × Val))
  | [], out => .ok (out, [])
  | (k, v) :: rest, out => do
      let (out₁, vin) ← parseEntry fs env rec cfg k v out
      let (out', rin) ← parseEntries fs env rec cfg rest out₁
      .ok (out', (k, vin) :: rin)

/-- Shallow embedding of `Config.recursively_parse_references`.  The `Nat`
argument is a recursion budget: the source recurses on freshly loaded documents
and can diverge on cyclic references.  First component of the result: the
returned output tree; second component: what the input tree has become
(`parse_object` mutates object-descriptor sub-dicts of the input in place). -/
def parseRefsP (fs : String → Option Val) (env : String → Option (String → Bool)) :
    Nat → Val → Except Err (Val × Val)
  | 0, _ => .error .fuel
  | n + 1, .dict l => do
      let (out, lin) ← parseEntries fs env (fun v => parseRefsP fs env n v) l l l
      .ok (.dict out, .dict lin)
  | _ + 1, _ => .error .attrErr

/-- Instantiation state: the next constructor-invocation id and the trace of
`(module, class)` constructor calls made so far. -/
abbrev InstSt := Nat × List (String × String)

/-- A Python call `v(**args)`: only a bound class handle is callable. -/
def callObj (v : Val) (a : List (String × Val)) (st : InstSt) :
    Except Err (Val × InstSt) :=
  match v with
  | .handle m c => .ok (.inst st.1 m c a, (st.1 + 1, st.2 ++ [(m, c)]))
  | _ => .error .typeErr

/-- Loop body of `Config.instantiate_objects` over the items of the input dict.
Dict values are instantiated recursively; at an `object_` entry with a non-null
value, the *current* `args` value of the working copy is instantiated (again)
and the handle is called with it, the result attached under `instance`. -/
def instEntries (rec : Val → InstSt → Except Err (Val × InstSt)) :
    List (String × Val) → List (String × Val) → InstSt →
    Except Err (List (String × Val) × InstSt)
  | [], out, st => .ok (out, st)
  | (k, v) :: rest, out, st => do
      let (out₁, st₁) ←
        match v with
        | .dict _ => do
            let (r, st') ← rec v st
            .ok (setKey out k r, st')
        | _ => (.ok (out, st) : Except Err _)
      if k = "object_" then
        if v = .null then instEntries rec rest out₁ st₁
        else do
          let av ← getKey "args" out₁
          let (a', st₂) ← rec av st₁
          let out₂ := setKey out₁ "args" a'
          let ae ← asEntries a'
          let (ival, st₃) ← callObj v ae st₂
          instEntries rec rest (setKey out₂ "instance" ival) st₃
      else instEntries rec rest out₁ st₁

/-- Shallow embedding of `Config.instantiate_objects`, threading the
instantiation state.  The `Nat` argument is a recursion budget (the source
re-instantiates the grown `args` value, which is not structurally smaller). -/
def instObjects : Nat → Val → InstSt → Except Err (Val × InstSt)
  | 0, _, _ => .error .fuel
  | n + 1, .dict l, st => do
      let (out, st') ← instEntries (fun v st' => instObjects n v st') l l st
      .ok (.dict out, st')
  | _ + 1, _, _ => .error .attrErr

/-- The `while self.does_this_still_need_parsing(...)` loop of `Config.fetch`,
with a budget of loop passes (the source imposes no cap and can diverge). -/
def fetchLoop (fs : String → Option Val) (env : String → Option (String → Bool))
    (fuel : Nat) : Nat → Val → Except Err Val
  | 0, _ => .error .fuel
  | p + 1, v => do
      let b ← needsParsingB v
      if b then do
        let (v', _) ← parseRefsP fs env fuel v
        fetchLoop fs env fuel p v'
      else .ok v

/-- The state a `Config` holds after `fetch`, plus the value `fetch` itself
returns to its caller (`ret`) and the trace of constructor calls. -/
structure FetchRes where
  raw : Val
  parsed : Val
  instantiated : Val
  ret : Option Val
  calls : List (String × String)
deriving DecidableEq

/-- Shallow embedding of `Config.fetch`: load, one resolve pass (the shallow
`copy.copy` shares sub-dicts, so the in-place mutations of that pass land in the
raw snapshot), the fixed-point loop, instantiation.  The Python function body
has no `return` statement, so the value returned to the caller is `None`. -/
def fetch (fs : String → Option Val) (env : String → Option (String → Bool))
    (fuel passes : Nat) (locator : String) : Except Err FetchRes := do
  let raw₀ ← loadJsonFile fs (.str locator)
  let (p₁, rawIn) ← parseRefsP fs env fuel raw₀
  let pF ← fetchLoop fs env fuel passes p₁
  let (ins, st) ← instObjects fuel pF (0, [])
  .ok { raw := rawIn, parsed := pF, instantiated := ins, ret := none, calls := st.2 }

/-- Dict lookup as a total function on values (`none` for non-dicts). -/
def dlookup (v : Val) (k : String) : Option Val :=
  match v with
  | .dict l => lookupKey k l
  | _ => none

/-- Lookup along a path of keys. -/
def dpath (v : Val) (p : List String) : Option Val :=
  p.foldl (fun acc k => acc.bind (fun w => dlookup w k)) (some v)

/-- True exactly on live-instance values. -/
def Val.isInst : Val → Bool
  | .inst _ _ _ _ => true
  | _ => false

/-- Classes exported by the example module `m`. -/
def m0cls : String → Bool := fun c => c = "C" || c = "D" || c = "Good"

/-- Concrete module universe for the examples: one module `m` exporting the
classes `C`, `D` and `Good` (no class `Bad`). -/
def env0 : String → Option (String → Bool) := fun m =>
  if m = "m" then some m0cls else none

/-- Leaf document of the spec's end-to-end example. -/
def leafDoc : Val :=
  .dict [("object", .dict [("module", .str "m"), ("class", .str "D"),
                           ("args", .dict [])])]

/-- Root document of the spec's end-to-end example: an object descriptor whose
argument `n` is a reference node pointing at `leafDoc`. -/
def rootDoc : Val :=
  .dict [("object", .dict [("module", .str "m"), ("class", .str "C"),
    ("args", .dict [("n", .dict [("reference", .str "leaf.json"),
                                 ("override", .dict [])])])])]

/-- Override-precedence target: `object.args.x = 1`. -/
def ovDoc : Val :=
  .dict [("object", .dict [("module", .str "m"), ("class", .str "C"),
                           ("args", .dict [("x", .int 1)])])]

/-- Flattening target `(a: 1, b: 2)`. -/
def flatDoc : Val := .dict [("a", .int 1), ("b", .int 2)]

/-- Two sibling descriptors, one naming the nonexistent class `Bad`. -/
def sibDoc : Val :=
  .dict [("good", .dict [("object", .dict [("module", .str "m"),
            ("class", .str "Good"), ("args", .dict [])])]),
         ("bad", .dict [("object", .dict [("module", .str "m"),
            ("class", .str "Bad"), ("args", .dict [])])])]

/-- A document whose resolution mutates the input in place (`parse_object`). -/
def mutDoc : Val :=
  .dict [("object", .dict [("module", .str "m"), ("class", .str "C"),
                           ("args", .dict [])])]

/-- Concrete file system serving the example documents. -/
def fs0 : String → Option Val := fun s =>
  if s = "leaf.json" then some leafDoc
  else if s = "root.json" then some rootDoc
  else if s = "ov.json" then some ovDoc
  else if s = "flat.json" then some flatDoc
  else if s = "sib.json" then some sibDoc
  else if s = "mut.json" then some mutDoc
  else none


mutual

/-- Erase every `object_` entry, at every dict nesting level.  Two trees are
equal after `stripH` exactly when they differ only in bound-handle entries. -/
def stripH : Val → Val
  | .dict l => .dict (stripHL l)
  | .list xs => .list (stripLL xs)
  | v => v

/-- `stripH` on the entries of a dict. -/
def stripHL : List (String × Val) → List (String × Val)
  | [] => []
  | (k, v) :: rest =>
      if k = "object_" then stripHL rest else (k, stripH v) :: stripHL rest

/-- `stripH` on the elements of a list. -/
def stripLL : List Val → List Val
  | [] => []
  | v :: rest => stripH v :: stripLL rest

end

/-- Membership of a key in a list of keys. -/
def keyMem (k : String) : List String → Bool
  | [] => false
  | k' :: rest => k' == k || keyMem k rest

/-- Duplicate-freeness of a list of keys. -/
def nodupB : List String → Bool
  | [] => true
  | k :: rest => !(keyMem k rest) && nodupB rest

mutual

/-- Well-formedness of a config tree as a Python dict structure: every dict
reachable through dict values has duplicate-free keys.  This always holds for
trees produced by `json.load`. -/
def wfs : Val → Bool
  | .dict l => nodupB (l.map Prod.fst) && wfsL l
  | _ => true

/-- `wfs` on the entries of a dict. -/
def wfsL : List (String × Val) → Bool
  | [] => true
  | (_, v) :: rest => wfs v && wfsL rest

end

mutual

/-- Does the tree contain a comment-prefixed key (two leading underscores) at
any nesting depth? -/
def hasCommentKey : Val → Bool
  | .dict l => hasCommentKeyL l
  | .list xs => hasCommentKeyLL xs
  | _ => false

/-- `hasCommentKey` on the entries of a dict. -/
def hasCommentKeyL : List (String × Val) → Bool
  | [] => false
  | (k, v) :: rest => k.startsWith "__" || hasCommentKey v || hasCommentKeyL rest

/-- `hasCommentKey` on the elements of a list. -/
def hasCommentKeyLL : List Val → Bool
  | [] => false
  | v :: rest => hasCommentKey v || hasCommentKeyLL rest

end

/-- Entries suitable as plain data in override/args lists: primitive values
(`parse_object` and the reference machinery never fire on them) under keys that
are not `reference`. -/
def primEntry (kv : String × Val) : Bool :=
  (match kv.2 with
   | .dict _ => false
   | .list _ => true
   | .null => true
   | .bool _ => true
   | .int _ => true
   | .str _ => true
   | .handle _ _ => true
   | .inst _ _ _ _ => true) && kv.1 ≠ "reference"

/-- The argument value the parent constructor `C` receives for the keyword `n`
in the end-to-end example: the resolved mapping for the nested descriptor, with
the live `D` instance buried at `object → instance`. -/
def nArgVal : Val :=
  .dict [("override", .dict []),
         ("object", .dict [("module", .str "m"), ("class", .str "D"),
                           ("args", .dict []), ("object_", .handle "m" "D"),
                           ("instance", .inst 1 "m" "D" [])]),
         ("source", .str "leaf.json")]

/-- Conditions under which one dict entry contributes nothing to
`does_this_still_need_parsing`: not a `reference` key, an `object` key only
with the bound-handle key present, and any dict value itself settled. -/
def npEntryOK (kv : String × Val) : Prop :=
  kv.1 ≠ "reference" ∧ (kv.1 = "object" → containsObjKey kv.2 = .ok true) ∧
  (∀ d, kv.2 = .dict d → npGo d = .ok false)

theorem lookupKey_setKey_self (l : List (String × Val)) (k : String) (v : Val) :
    lookupKey k (setKey l k v) = some v := by
  induction l with
  | nil => simp [setKey, lookupKey]
  | cons kv rest ih =>
      obtain ⟨k', w⟩ := kv
      by_cases h : k' = k
      · simp [setKey, h, lookupKey]
      · simp [setKey, h, lookupKey, ih]

theorem lookupKey_setKey_ne (l : List (String × Val)) (k k' : String) (v : Val)
    (h : k' ≠ k) : lookupKey k (setKey l k' v) = lookupKey k l := by
  induction l with
  | nil => simp [setKey, lookupKey, h]
  | cons kv rest ih =>
      obtain ⟨k'', w⟩ := kv
      by_cases h2 : k'' = k'
      · subst h2
        simp [setKey, lookupKey, h]
      · by_cases h3 : k'' = k
        · subst h3
          simp [setKey, h2, lookupKey]
        · simp [setKey, h2, lookupKey, h3, ih]

theorem setKey_of_lookup_eq (l : List (String × Val)) (k : String) (v : Val)
    (h : lookupKey k l = some v) : setKey l k v = l := by
  induction l with
  | nil => simp [lookupKey] at h
  | cons kv rest ih =>
      obtain ⟨k', w⟩ := kv
      by_cases h2 : k' = k
      · subst h2
        simp [lookupKey] at h
        simp [setKey, h]
      · simp [lookupKey, h2] at h
        simp [setKey, h2, ih h]

theorem lookupKey_removeKey_self (l : List (String × Val)) (k : String) :
    lookupKey k (removeKey l k) = none := by
  induction l with
  | nil => simp [removeKey, lookupKey]
  | cons kv rest ih =>
      obtain ⟨k'', w⟩ := kv
      by_cases h2 : k'' = k
      · simpa [removeKey, List.filter_cons, h2] using ih
      · simpa [removeKey, List.filter_cons, h2, lookupKey] using ih

theorem lookupKey_removeKey_ne (l : List (String × Val)) (k k' : String)
    (h : k ≠ k') : lookupKey k (removeKey l k') = lookupKey k l := by
  induction l with
  | nil => simp [removeKey, lookupKey]
  | cons kv rest ih =>
      obtain ⟨k'', w⟩ := kv
      by_cases h2 : k'' = k'
      · subst h2
        have h3 : ¬(k'' = k) := fun e => h (e ▸ rfl)
        simpa [removeKey, List.filter_cons, lookupKey, h3] using ih
      · by_cases h3 : k'' = k
        · subst h3
          simp [removeKey, List.filter_cons, h2, lookupKey]
        · simpa [removeKey, List.filter_cons, h2, lookupKey, h3] using ih

theorem foldSet_nil (o : List (String × Val)) : foldSet o [] = o := rfl

theorem foldSet_cons (o : List (String × Val)) (kv : String × Val)
    (l : List (String × Val)) : foldSet o (kv :: l) = foldSet (setKey o kv.1 kv.2) l := rfl

theorem lookupKey_foldSet_none (l o : List (String × Val)) (k : String)
    (h : lookupKey k l = none) : lookupKey k (foldSet o l) = lookupKey k o := by
  induction l generalizing o with
  | nil => simp [foldSet_nil]
  | cons kv rest ih =>
      obtain ⟨k', w⟩ := kv
      by_cases h2 : k' = k
      · simp [lookupKey, h2] at h
      · simp only [lookupKey, if_neg h2] at h
        rw [foldSet_cons, ih _ h, lookupKey_setKey_ne _ _ _ _ h2]

theorem lookupKey_none_of_keyMem_false (l : List (String × Val)) (k : String)
    (h : keyMem k (l.map Prod.fst) = false) : lookupKey k l = none := by
  induction l with
  | nil => simp [lookupKey]
  | cons kv rest ih =>
      obtain ⟨k', w⟩ := kv
      simp only [List.map, keyMem, Bool.or_eq_false_iff, beq_eq_false_iff_ne] at h
      simp [lookupKey, h.1, ih h.2]

theorem lookupKey_foldSet_some (l o : List (String × Val)) (k : String) (w : Val)
    (hnd : nodupB (l.map Prod.fst) = true)
    (h : lookupKey k l = some w) : lookupKey k (foldSet o l) = some w := by
  induction l generalizing o with
  | nil => simp [lookupKey] at h
  | cons kv rest ih =>
      obtain ⟨k', v'⟩ := kv
      simp only [List.map, nodupB, Bool.and_eq_true, Bool.not_eq_true'] at hnd
      by_cases h2 : k' = k
      · subst h2
        simp only [lookupKey, if_pos rfl] at h
        cases h
        rw [foldSet_cons]
        have hrest : lookupKey k' rest = none :=
          lookupKey_none_of_keyMem_false _ _ hnd.1
        rw [lookupKey_foldSet_none _ _ _ hrest, lookupKey_setKey_self]
      · simp only [lookupKey, if_neg h2] at h
        rw [foldSet_cons]
        exact ih _ hnd.2 h

@[simp] theorem except_bind_ok {ε α β : Type} (a : α) (f : α → Except ε β) :
    ((Except.ok a : Except ε α) >>= f) = f a := rfl

@[simp] theorem except_bind_error {ε α β : Type} (e : ε) (f : α → Except ε β) :
    ((Except.error e : Except ε α) >>= f) = .error e := rfl

@[simp] theorem except_map_ok {ε α β : Type} (a : α) (f : α → β) :
    ((Except.ok a : Except ε α).map f) = .ok (f a) := rfl

@[simp] theorem except_map_error {ε α β : Type} (e : ε) (f : α → β) :
    ((Except.error e : Except ε α).map f) = .error e := rfl

theorem parseEntries_prim (fs : String → Option Val)
    (env : String → Option (String → Bool)) (rec : Val → Except Err (Val × Val))
    (cfg todo out : List (String × Val))
    (h : ∀ kv ∈ todo, primEntry kv = true) :
    parseEntries fs env rec cfg todo out = .ok (out, todo) := by
  induction todo generalizing out with
  | nil => simp [parseEntries]
  | cons kv rest ih =>
      obtain ⟨k, v⟩ := kv
      have hkv : primEntry (k, v) = true := h _ (List.mem_cons_self _ _)
      have hrest : ∀ kv ∈ rest, primEntry kv = true :=
        fun kv hm => h _ (List.mem_cons_of_mem _ hm)
      by_cases hc : k.startsWith "__"
      · simp [parseEntries, parseEntry, hc, ih _ hrest]
      · cases v with
        | dict d => simp [primEntry] at hkv
        | null =>
            simp only [primEntry, Bool.and_eq_true, decide_eq_true_eq] at hkv
            simp [parseEntries, parseEntry, hc, hkv.2, ih _ hrest]
        | bool b =>
            simp only [primEntry, Bool.and_eq_true, decide_eq_true_eq] at hkv
            simp [parseEntries, parseEntry, hc, hkv.2, ih _ hrest]
        | int n =>
            simp only [primEntry, Bool.and_eq_true, decide_eq_true_eq] at hkv
            simp [parseEntries, parseEntry, hc, hkv.2, ih _ hrest]
        | str s =>
            simp only [primEntry, Bool.and_eq_true, decide_eq_true_eq] at hkv
            simp [parseEntries, parseEntry, hc, hkv.2, ih _ hrest]
        | list xs =>
            simp only [primEntry, Bool.and_eq_true, decide_eq_true_eq] at hkv
            simp [parseEntries, parseEntry, hc, hkv.2, ih _ hrest]
        | handle m c =>
            simp only [primEntry, Bool.and_eq_true, decide_eq_true_eq] at hkv
            simp [parseEntries, parseEntry, hc, hkv.2, ih _ hrest]
        | inst i m c a =>
            simp only [primEntry, Bool.and_eq_true, decide_eq_true_eq] at hkv
            simp [parseEntries, parseEntry, hc, hkv.2, ih _ hrest]

theorem parseRefsP_prim (fs : String → Option Val)
    (env : String → Option (String → Bool)) (n : Nat) (l : List (String × Val))
    (h : ∀ kv ∈ l, primEntry kv = true) :
    parseRefsP fs env (n + 1) (.dict l) = .ok (.dict l, .dict l) := by
  simp [parseRefsP, parseEntries_prim fs env _ l l l h]

theorem parseEntries_append (fs : String → Option Val)
    (env : String → Option (String → Bool)) (rec : Val → Except Err (Val × Val))
    (cfg l₁ l₂ out : List (String × Val)) :
    parseEntries fs env rec cfg (l₁ ++ l₂) out = (do
      let (o₁, r₁) ← parseEntries fs env rec cfg l₁ out
      let (o₂, r₂) ← parseEntries fs env rec cfg l₂ o₁
      .ok (o₂, r₁ ++ r₂)) := by
  induction l₁ generalizing out with
  | nil =>
      simp only [List.nil_append, parseEntries, except_bind_ok]
      cases parseEntries fs env rec cfg l₂ out <;> simp
  | cons kv rest ih =>
      obtain ⟨k, v⟩ := kv
      cases hpe : parseEntry fs env rec cfg k v out with
      | error e => simp [parseEntries, List.cons_append, hpe]
      | ok p =>
          obtain ⟨p1, p2⟩ := p
          simp only [List.cons_append, parseEntries, hpe, except_bind_ok,
            List.append_eq]
          rw [ih]
          cases h2 : parseEntries fs env rec cfg rest p1 with
          | error e => simp
          | ok q =>
              obtain ⟨q1, q2⟩ := q
              simp only [except_bind_ok]
              cases h3 : parseEntries fs env rec cfg l₂ q1 with
              | error e => simp
              | ok r => simp

/-- C1 (counterexample): the claim "resolver and instantiator output contains no
comment-prefixed key at any depth" is false — on the input `(__c: null)` both
`recursively_parse_references` and `instantiate_objects` return an output that
still contains the comment key `__c` (the initial `deepcopy` keeps it, the
comment check only skips processing). -/
theorem C1_counterexample :
    (parseRefsP fs0 env0 2 (.dict [("__c", .null)])).map
        (fun p => hasCommentKey p.1) = .ok true ∧
    (instObjects 2 (.dict [("__c", .null)]) (0, [])).map
        (fun p => hasCommentKey p.1) = .ok true := by
  constructor
  · with_unfolding_all rfl
  · with_unfolding_all rfl

/-- C1 (amended): comment-prefixed keys are skipped during the resolver's
traversal (their values are not processed at all, not even reference nodes
inside them) but they are retained verbatim in the resolver's output and left
in place by the instantiator; they are never removed. -/
theorem C1_comment_keys_skipped_not_removed
    (fs : String → Option Val) (env : String → Option (String → Bool))
    (n : Nat) (k : String) (v : Val) (st : InstSt)
    (hc : k.startsWith "__" = true) :
    parseRefsP fs env (n + 1) (.dict [(k, v)]) =
      .ok (.dict [(k, v)], .dict [(k, v)]) ∧
    ((∀ d, v ≠ Val.dict d) →
      instObjects (n + 1) (.dict [(k, v)]) st = .ok (.dict [(k, v)], st)) := by
  constructor
  · simp [parseRefsP, parseEntries, parseEntry, hc]
  · intro hnd
    have hko : k ≠ "object_" := by
      intro e
      subst e
      have hf : ("object_".startsWith "__") = false := by with_unfolding_all rfl
      rw [hf] at hc
      exact Bool.noConfusion hc
    cases v with
    | dict d => exact absurd rfl (hnd d)
    | null => simp [instObjects, instEntries, hko]
    | bool b => simp [instObjects, instEntries, hko]
    | int i => simp [instObjects, instEntries, hko]
    | str s => simp [instObjects, instEntries, hko]
    | list xs => simp [instObjects, instEntries, hko]
    | handle m c => simp [instObjects, instEntries, hko]
    | inst i m c a => simp [instObjects, instEntries, hko]

/-- C1 (witness): the amended statement at the concrete comment entry
`(__c: "x")`. -/
theorem C1_witness :
    ("__c".startsWith "__" = true) ∧
    parseRefsP fs0 env0 3 (.dict [("__c", .str "x")]) =
      .ok (.dict [("__c", .str "x")], .dict [("__c", .str "x")]) ∧
    instObjects 3 (.dict [("__c", .str "x")]) (0, []) =
      .ok (.dict [("__c", .str "x")], (0, [])) :=
  ⟨by with_unfolding_all rfl,
   (C1_comment_keys_skipped_not_removed fs0 env0 2 "__c" (.str "x") (0, [])
      (by with_unfolding_all rfl)).1,
   (C1_comment_keys_skipped_not_removed fs0 env0 2 "__c" (.str "x") (0, [])
      (by with_unfolding_all rfl)).2 (fun d h => Val.noConfusion h)⟩

/-- C7 (counterexample): the claim "every document node containing a reference
key but no override key fails with MissingOverrideError" is false: a node whose
`reference` value is a dict is traversed as an ordinary mapping and resolution
succeeds without any error, and a node whose reference string does not load
fails with the loader's error instead (the load precedes the override lookup). -/
theorem C7_counterexample :
    parseRefsP fs0 env0 3 (.dict [("reference", .dict [])]) =
      .ok (.dict [("reference", .dict [])], .dict [("reference", .dict [])]) ∧
    parseRefsP fs0 env0 3 (.dict [("reference", .str "nofile")]) =
      .error (.fileErr "nofile") := by
  constructor
  · with_unfolding_all rfl
  · with_unfolding_all rfl

/-- C7 (amended): for every document node in which a `reference` key holds a
string locator whose target loads, whose earlier entries process without error,
and which has no `override` key anywhere, resolution fails with
`KeyError('override')` — the code's realization of `MissingOverrideError`. -/
theorem C7_missing_override (fs : String → Option Val)
    (env : String → Option (String → Bool)) (n : Nat) (s : String) (t : Val)
    (pre post out₁ pin : List (String × Val))
    (hload : fs s = some t)
    (hpre : parseEntries fs env (fun v => parseRefsP fs env n v)
        (pre ++ ("reference", .str s) :: post) pre
        (pre ++ ("reference", .str s) :: post) = .ok (out₁, pin))
    (hov : lookupKey "override" (pre ++ ("reference", .str s) :: post) = none) :
    parseRefsP fs env (n + 1) (.dict (pre ++ ("reference", .str s) :: post)) =
      .error (.keyErr "override") := by
  simp only [parseRefsP, parseEntries_append, hpre, except_bind_ok]
  have h1 : ("reference".startsWith "__") = false := by with_unfolding_all rfl
  simp [parseEntries, parseEntry, h1, loadJsonFile, hload, getKey, hov]

/-- C7 (witness): the amended statement at a concrete node
`(a: 1, reference: "flat.json")` with no override key. -/
theorem C7_witness :
    fs0 "flat.json" = some flatDoc ∧
    parseEntries fs0 env0 (fun v => parseRefsP fs0 env0 2 v)
        [("a", .int 1), ("reference", .str "flat.json")] [("a", .int 1)]
        [("a", .int 1), ("reference", .str "flat.json")] =
      .ok ([("a", .int 1), ("reference", .str "flat.json")], [("a", .int 1)]) ∧
    lookupKey "override" [("a", .int 1), ("reference", .str "flat.json")] = none ∧
    parseRefsP fs0 env0 3 (.dict [("a", .int 1), ("reference", .str "flat.json")]) =
      .error (.keyErr "override") :=
  ⟨by with_unfolding_all rfl, by with_unfolding_all rfl, by with_unfolding_all rfl,
   C7_missing_override fs0 env0 2 "flat.json" flatDoc [("a", .int 1)] []
     [("a", .int 1), ("reference", .str "flat.json")] [("a", .int 1)]
     (by with_unfolding_all rfl) (by with_unfolding_all rfl)
     (by with_unfolding_all rfl)⟩

/-- C2 (counterexample): the claim "resolve is pure / the raw snapshot is never
mutated" is false — resolving `mutDoc` leaves the input with an `object_` entry
attached in place to its object descriptor, and after `fetch` the raw snapshot
(which shares sub-dicts with the resolver input through the shallow copy) holds
that mutated tree, not the loaded one. -/
theorem C2_counterexample :
    (parseRefsP fs0 env0 5 mutDoc).map Prod.snd =
      .ok (.dict [("object", .dict [("module", .str "m"), ("class", .str "C"),
        ("args", .dict []), ("object_", .handle "m" "C")])]) ∧
    (Val.dict [("object", .dict [("module", .str "m"), ("class", .str "C"),
        ("args", .dict []), ("object_", .handle "m" "C")])]) ≠ mutDoc ∧
    fs0 "mut.json" = some mutDoc ∧
    (fetch fs0 env0 9 9 "mut.json").map (fun r => r.raw) =
      .ok (.dict [("object", .dict [("module", .str "m"), ("class", .str "C"),
        ("args", .dict []), ("object_", .handle "m" "C")])]) := by
  refine ⟨?_, ?_, ?_, ?_⟩
  · with_unfolding_all rfl
  · with_unfolding_all decide
  · with_unfolding_all rfl
  · with_unfolding_all rfl

/-- C4 (code_bug evidence): `Config.fetch` performs Load, iterated resolution
until the fixed-point check returns false, then instantiation — but its body has
no `return` statement, so the value returned to the caller is `None`, not the
final instantiated tree (nor the parsed dict its own docstring promises); the
results are only stored on the object. -/
theorem C4_fetch_returns_none :
    (fetch fs0 env0 9 9 "root.json").map (fun r => r.ret) = .ok none ∧
    (fetch fs0 env0 9 9 "root.json").map
        (fun r => decide (r.ret = some r.instantiated)) = .ok false ∧
    (fetch fs0 env0 9 9 "root.json").map
        (fun r => decide (r.ret = some r.parsed)) = .ok false := by
  refine ⟨?_, ?_, ?_⟩
  · with_unfolding_all rfl
  · with_unfolding_all rfl
  · with_unfolding_all rfl


/-- C3 (counterexample): the claim "a nested object descriptor inside `args`
makes the parent constructor receive the live instance as that keyword argument"
is false — in the end-to-end example the parent `C` receives, for `n`, the
resolved mapping `nArgVal` (a dict), not an instance value. -/
theorem C3_counterexample :
    (fetch fs0 env0 9 9 "root.json").map
        (fun r => dpath r.instantiated ["object", "instance"]) =
      .ok (some (.inst 2 "m" "C" [("n", nArgVal)])) ∧
    Val.isInst nArgVal = false := by
  constructor
  · with_unfolding_all rfl
  · with_unfolding_all rfl

/-- C3 (amended): the parent constructor receives, for such a keyword argument,
the resolved mapping of the nested node; the live nested instance is attached
inside that mapping under `object → instance`, and children are constructed
before parents (the call trace runs `D`, `D`, then `C`, and the attached nested
instance carries an earlier invocation id than the parent's). -/
theorem C3_nested_instance_inside_mapping :
    (fetch fs0 env0 9 9 "root.json").map
        (fun r => dpath r.instantiated ["object", "instance"]) =
      .ok (some (.inst 2 "m" "C" [("n", nArgVal)])) ∧
    dpath nArgVal ["object", "instance"] = some (.inst 1 "m" "D" []) ∧
    (fetch fs0 env0 9 9 "root.json").map (fun r => r.calls) =
      .ok [("m", "D"), ("m", "D"), ("m", "C")] := by
  refine ⟨?_, ?_, ?_⟩
  · with_unfolding_all rfl
  · with_unfolding_all rfl
  · with_unfolding_all rfl

/-- C10: in the end-to-end example the nested descriptor's constructor `D` is
invoked twice — once when `args` is visited as an ordinary dict child and once
more just before the parent's constructor call — and the instance left in the
final tree is `inst 1`, the one from the later, separate invocation (the call
trace is `D`, `D`, `C` while the tree holds two descriptors only). -/
theorem C10_nested_constructor_invoked_twice :
    (fetch fs0 env0 9 9 "root.json").map (fun r => r.calls) =
      .ok [("m", "D"), ("m", "D"), ("m", "C")] ∧
    (fetch fs0 env0 9 9 "root.json").map
        (fun r => dpath r.instantiated
          ["object", "args", "n", "object", "instance"]) =
      .ok (some (.inst 1 "m" "D" [])) := by
  constructor
  · with_unfolding_all rfl
  · with_unfolding_all rfl

/-- C8: binding an object descriptor whose module exists but whose class is not
found attaches a null handle without raising; under instantiation such a node
gets no instance while a sibling descriptor with a non-null handle is still
instantiated, and the whole run completes without raising. -/
theorem C8_binding_failure_isolated
    (env : String → Option (String → Bool)) (m c : String) (M : String → Bool)
    (o : List (String × Val))
    (hm : env m = some M) (hc : M c = false)
    (hmod : lookupKey "module" o = some (.str m))
    (hcls : lookupKey "class" o = some (.str c)) :
    parseObject env o = .ok (setKey o "object_" .null) ∧
    (fetch fs0 env0 9 9 "sib.json").map
        (fun r => (dpath r.instantiated ["good", "object", "instance"],
                   dpath r.instantiated ["bad", "object", "instance"])) =
      .ok (some (.inst 0 "m" "Good" []), none) := by
  constructor
  · simp [parseObject, getKey, hmod, hcls, asStr, hm, hc]
  · with_unfolding_all rfl

/-- C8 (witness): the binding-failure statement at the concrete descriptor
naming the nonexistent class `Bad` of module `m`. -/
theorem C8_witness :
    env0 "m" = some m0cls ∧ m0cls "Bad" = false ∧
    lookupKey "module" [("module", .str "m"), ("class", .str "Bad"),
        ("args", .dict [])] = some (.str "m") ∧
    lookupKey "class" [("module", .str "m"), ("class", .str "Bad"),
        ("args", .dict [])] = some (.str "Bad") ∧
    parseObject env0 [("module", .str "m"), ("class", .str "Bad"),
        ("args", .dict [])] =
      .ok (setKey [("module", .str "m"), ("class", .str "Bad"),
        ("args", .dict [])] "object_" .null) ∧
    (fetch fs0 env0 9 9 "sib.json").map
        (fun r => (dpath r.instantiated ["good", "object", "instance"],
                   dpath r.instantiated ["bad", "object", "instance"])) =
      .ok (some (.inst 0 "m" "Good" []), none) :=
  ⟨by with_unfolding_all rfl, by with_unfolding_all rfl,
   by with_unfolding_all rfl, by with_unfolding_all rfl,
   (C8_binding_failure_isolated env0 "m" "Bad" m0cls _
      (by with_unfolding_all rfl) (by with_unfolding_all rfl)
      (by with_unfolding_all rfl) (by with_unfolding_all rfl)).1,
   (C8_binding_failure_isolated env0 "m" "Bad" m0cls
      [("module", .str "m"), ("class", .str "Bad"), ("args", .dict [])]
      (by with_unfolding_all rfl) (by with_unfolding_all rfl)
      (by with_unfolding_all rfl) (by with_unfolding_all rfl)).2⟩

theorem parseRefsP_dict_succ (fs : String → Option Val)
    (env : String → Option (String → Bool)) (n : Nat)
    (l : List (String × Val)) :
    parseRefsP fs env (n + 1) (.dict l) = (do
      let (out, lin) ← parseEntries fs env (fun v => parseRefsP fs env n v) l l l
      .ok (.dict out, .dict lin)) := rfl

theorem applyOverrides_shape (mv cv : Val) (ov a : List (String × Val)) :
    applyOverrides (.dict [("object", .dict [("module", mv), ("class", cv),
        ("args", .dict a)])]) ov =
      .ok (.dict [("object", .dict [("module", mv), ("class", cv),
        ("args", .dict (foldSet a ov))])]) := by
  induction ov generalizing a with
  | nil => simp [applyOverrides, foldSet_nil]
  | cons kv rest ih =>
      simp only [applyOverrides, applyOv1, getKey, lookupKey, setKey]
      simp only [foldSet_cons]
      simpa using ih (setKey a kv.1 kv.2)

theorem setKey_primEntry (l : List (String × Val)) (k₀ : String) (v₀ : Val)
    (hl : ∀ kv ∈ l, primEntry kv = true) (h₀ : primEntry (k₀, v₀) = true) :
    ∀ kv ∈ setKey l k₀ v₀, primEntry kv = true := by
  induction l with
  | nil =>
      intro kv hm
      simp [setKey] at hm
      simpa [hm] using h₀
  | cons kv' rest ih =>
      obtain ⟨k', w⟩ := kv'
      intro kv hm
      by_cases h2 : k' = k₀
      · simp only [setKey, if_pos h2, List.mem_cons] at hm
        rcases hm with hm | hm
        · simpa [hm] using h₀
        · exact hl _ (List.mem_cons_of_mem _ hm)
      · simp only [setKey, if_neg h2, List.mem_cons] at hm
        rcases hm with hm | hm
        · exact hl _ (by simp [hm])
        · exact ih (fun kv hk => hl _ (List.mem_cons_of_mem _ hk)) _ hm

theorem foldSet_primEntry (ov a : List (String × Val))
    (ha : ∀ kv ∈ a, primEntry kv = true)
    (hov : ∀ kv ∈ ov, primEntry kv = true) :
    ∀ kv ∈ foldSet a ov, primEntry kv = true := by
  induction ov generalizing a with
  | nil => simpa [foldSet_nil] using ha
  | cons kv rest ih =>
      rw [foldSet_cons]
      exact ih _
        (setKey_primEntry a kv.1 kv.2 ha (hov _ (List.mem_cons_self _ _)))
        (fun kv hk => hov _ (List.mem_cons_of_mem _ hk))

/-- C6: resolving a reference node splices every top-level key of the resolved
target document into the output at the node's level, attaches a `source` key
holding the original locator string, and removes the `reference` key.  (The
node's own `override` entry also remains in the output, processed after the
splice; keys named `reference`, `source` or `override` at the node's level are
governed by those steps, every other target key arrives verbatim.) -/
theorem C6_reference_flattening (fs : String → Option Val)
    (env : String → Option (String → Bool)) (n : Nat) (s : String)
    (t t' : List (String × Val)) (tin : Val)
    (hload : fs s = some (.dict t))
    (hrec : parseRefsP fs env (n + 1) (.dict t) = .ok (.dict t', tin))
    (hnd : nodupB (t'.map Prod.fst) = true) :
    (parseRefsP fs env (n + 2)
        (.dict [("reference", .str s), ("override", .dict [])])).map Prod.fst =
      .ok (.dict (setKey (removeKey (setKey
        (foldSet [("reference", .str s), ("override", .dict [])] t')
        "source" (.str s)) "reference") "override" (.dict []))) ∧
    lookupKey "reference" (setKey (removeKey (setKey
        (foldSet [("reference", .str s), ("override", .dict [])] t')
        "source" (.str s)) "reference") "override" (.dict [])) = none ∧
    lookupKey "source" (setKey (removeKey (setKey
        (foldSet [("reference", .str s), ("override", .dict [])] t')
        "source" (.str s)) "reference") "override" (.dict [])) = some (.str s) ∧
    (∀ k w, lookupKey k t' = some w → k ≠ "reference" → k ≠ "source" →
      k ≠ "override" →
      lookupKey k (setKey (removeKey (setKey
        (foldSet [("reference", .str s), ("override", .dict [])] t')
        "source" (.str s)) "reference") "override" (.dict [])) = some w) := by
  have hc1 : ("reference".startsWith "__") = false := by with_unfolding_all rfl
  have hc2 : ("override".startsWith "__") = false := by with_unfolding_all rfl
  have hempty : parseRefsP fs env (n + 1) (.dict ([] : List (String × Val))) =
      .ok (.dict [], .dict []) := parseRefsP_prim fs env n [] (by simp)
  refine ⟨?_, ?_, ?_, ?_⟩
  · rw [parseRefsP_dict_succ]
    simp [parseEntries, parseEntry, hc1, hc2, loadJsonFile, hload,
      getKey, lookupKey, asEntries, applyOverrides, hrec, hempty]
  · rw [lookupKey_setKey_ne _ _ _ _ (by decide), lookupKey_removeKey_self]
  · rw [lookupKey_setKey_ne _ _ _ _ (by decide),
      lookupKey_removeKey_ne _ _ _ (by decide), lookupKey_setKey_self]
  · intro k w hk hr hs2 ho
    rw [lookupKey_setKey_ne _ _ _ _ (fun e => ho e.symm),
      lookupKey_removeKey_ne _ _ _ hr,
      lookupKey_setKey_ne _ _ _ _ (fun e => hs2 e.symm),
      lookupKey_foldSet_some _ _ _ _ hnd hk]

/-- C6 (witness): the flattening statement at the spec's concrete example —
target `(a: 1, b: 2)` under locator `flat.json`, yielding top-level keys `a`,
`b` and `source = "flat.json"` and no `reference` key. -/
theorem C6_witness :
    fs0 "flat.json" = some (.dict [("a", .int 1), ("b", .int 2)]) ∧
    parseRefsP fs0 env0 2 (.dict [("a", .int 1), ("b", .int 2)]) =
      .ok (.dict [("a", .int 1), ("b", .int 2)],
           .dict [("a", .int 1), ("b", .int 2)]) ∧
    nodupB ([("a", Val.int 1), ("b", Val.int 2)].map Prod.fst) = true ∧
    (parseRefsP fs0 env0 3
        (.dict [("reference", .str "flat.json"), ("override", .dict [])])).map
        Prod.fst =
      .ok (.dict [("override", .dict []), ("a", .int 1), ("b", .int 2),
                  ("source", .str "flat.json")]) ∧
    lookupKey "a" [("override", Val.dict []), ("a", Val.int 1), ("b", Val.int 2),
        ("source", Val.str "flat.json")] = some (.int 1) ∧
    lookupKey "b" [("override", Val.dict []), ("a", Val.int 1), ("b", Val.int 2),
        ("source", Val.str "flat.json")] = some (.int 2) ∧
    lookupKey "source" [("override", Val.dict []), ("a", Val.int 1),
        ("b", Val.int 2), ("source", Val.str "flat.json")] =
      some (.str "flat.json") ∧
    lookupKey "reference" [("override", Val.dict []), ("a", Val.int 1),
        ("b", Val.int 2), ("source", Val.str "flat.json")] = none := by
  have h := C6_reference_flattening fs0 env0 1 "flat.json"
    [("a", .int 1), ("b", .int 2)] [("a", .int 1), ("b", .int 2)]
    (.dict [("a", .int 1), ("b", .int 2)])
    (by with_unfolding_all rfl) (by with_unfolding_all rfl)
    (by with_unfolding_all rfl)
  refine ⟨by with_unfolding_all rfl, by with_unfolding_all rfl,
    by with_unfolding_all rfl, ?_, by with_unfolding_all rfl,
    by with_unfolding_all rfl, by with_unfolding_all rfl,
    by with_unfolding_all rfl⟩
  have h1 := h.1
  rwa [show (setKey (removeKey (setKey
      (foldSet [("reference", Val.str "flat.json"), ("override", Val.dict [])]
        [("a", Val.int 1), ("b", Val.int 2)])
      "source" (Val.str "flat.json")) "reference") "override" (Val.dict [])) =
      [("override", Val.dict []), ("a", Val.int 1), ("b", Val.int 2),
       ("source", Val.str "flat.json")] from by with_unfolding_all rfl] at h1

/-- C5: each entry `(k, w)` of a reference node's override mapping overwrites
the target's `object.args` entry for `k` (last-write-wins assignment, no
merging); the resolved tree holds the override value at `object → args → k`.
Stated for a target whose `args` and override hold primitive (non-mapping,
non-reference) values, so the recursive passes leave them untouched. -/
theorem C5_override_precedence (fs : String → Option Val)
    (env : String → Option (String → Bool)) (n : Nat) (s m c : String)
    (M : String → Bool) (ov a : List (String × Val))
    (henv : env m = some M)
    (hload : fs s = some (.dict [("object", .dict [("module", .str m),
        ("class", .str c), ("args", .dict a)])]))
    (hpa : ∀ kv ∈ a, primEntry kv = true)
    (hpov : ∀ kv ∈ ov, primEntry kv = true)
    (hnd : nodupB (ov.map Prod.fst) = true) :
    ((parseRefsP fs env (n + 4) (.dict [("reference", .str s),
        ("override", .dict ov)])).map Prod.fst =
      .ok (.dict [("override", .dict ov),
        ("object", .dict [("module", .str m), ("class", .str c),
          ("args", .dict (foldSet a ov)),
          ("object_", if M c then Val.handle m c else Val.null)]),
        ("source", .str s)])) ∧
    (∀ k w, lookupKey k ov = some w →
      dpath (.dict [("override", .dict ov),
        ("object", .dict [("module", .str m), ("class", .str c),
          ("args", .dict (foldSet a ov)),
          ("object_", if M c then Val.handle m c else Val.null)]),
        ("source", .str s)]) ["object", "args", k] = some w) := by
  have hc1 : ("reference".startsWith "__") = false := by with_unfolding_all rfl
  have hc2 : ("override".startsWith "__") = false := by with_unfolding_all rfl
  have hc3 : ("object".startsWith "__") = false := by with_unfolding_all rfl
  have hc4 : ("module".startsWith "__") = false := by with_unfolding_all rfl
  have hc5 : ("class".startsWith "__") = false := by with_unfolding_all rfl
  have hc6 : ("object_".startsWith "__") = false := by with_unfolding_all rfl
  have hargs : parseRefsP fs env (n + 1) (.dict (foldSet a ov)) =
      .ok (.dict (foldSet a ov), .dict (foldSet a ov)) :=
    parseRefsP_prim fs env n _ (foldSet_primEntry ov a hpa hpov)
  have hovp : parseRefsP fs env (n + 3) (.dict ov) = .ok (.dict ov, .dict ov) :=
    parseRefsP_prim fs env (n + 2) ov hpov
  cases hMc : M c
  case false =>
    have hdesc : parseRefsP fs env (n + 2) (.dict [("module", .str m),
        ("class", .str c), ("args", .dict (foldSet a ov)),
        ("object_", Val.null)]) =
        .ok (.dict [("module", .str m), ("class", .str c),
          ("args", .dict (foldSet a ov)), ("object_", Val.null)],
          .dict [("module", .str m), ("class", .str c),
          ("args", .dict (foldSet a ov)), ("object_", Val.null)]) := by
      rw [parseRefsP_dict_succ]
      simp [parseEntries, parseEntry, hc4, hc5, hc6, hargs, setKey]
    have htmp : parseRefsP fs env (n + 3) (.dict [("object",
        .dict [("module", .str m), ("class", .str c),
          ("args", .dict (foldSet a ov))])]) =
        .ok (.dict [("object", .dict [("module", .str m), ("class", .str c),
            ("args", .dict (foldSet a ov)), ("object_", Val.null)])],
          .dict [("object", .dict [("module", .str m), ("class", .str c),
            ("args", .dict (foldSet a ov)), ("object_", Val.null)])]) := by
      rw [parseRefsP_dict_succ]
      simp [parseEntries, parseEntry, hc3, parseObject, getKey, lookupKey,
        asStr, henv, hMc, setKey, hdesc]
    constructor
    · rw [parseRefsP_dict_succ]
      simp [parseEntries, parseEntry, hc1, hc2, loadJsonFile, hload, getKey,
        lookupKey, asEntries, applyOverrides_shape, htmp, hovp, foldSet_cons,
        foldSet_nil, setKey, removeKey, List.filter]
    · intro k w hk
      simp [dpath, dlookup, lookupKey]
      exact lookupKey_foldSet_some ov a k w hnd hk
  case true =>
    have hdesc : parseRefsP fs env (n + 2) (.dict [("module", .str m),
        ("class", .str c), ("args", .dict (foldSet a ov)),
        ("object_", Val.handle m c)]) =
        .ok (.dict [("module", .str m), ("class", .str c),
          ("args", .dict (foldSet a ov)), ("object_", Val.handle m c)],
          .dict [("module", .str m), ("class", .str c),
          ("args", .dict (foldSet a ov)), ("object_", Val.handle m c)]) := by
      rw [parseRefsP_dict_succ]
      simp [parseEntries, parseEntry, hc4, hc5, hc6, hargs, setKey]
    have htmp : parseRefsP fs env (n + 3) (.dict [("object",
        .dict [("module", .str m), ("class", .str c),
          ("args", .dict (foldSet a ov))])]) =
        .ok (.dict [("object", .dict [("module", .str m), ("class", .str c),
            ("args", .dict (foldSet a ov)), ("object_", Val.handle m c)])],
          .dict [("object", .dict [("module", .str m), ("class", .str c),
            ("args", .dict (foldSet a ov)), ("object_", Val.handle m c)])]) := by
      rw [parseRefsP_dict_succ]
      simp [parseEntries, parseEntry, hc3, parseObject, getKey, lookupKey,
        asStr, henv, hMc, setKey, hdesc]
    constructor
    · rw [parseRefsP_dict_succ]
      simp [parseEntries, parseEntry, hc1, hc2, loadJsonFile, hload, getKey,
        lookupKey, asEntries, applyOverrides_shape, htmp, hovp, foldSet_cons,
        foldSet_nil, setKey, removeKey, List.filter]
    · intro k w hk
      simp [dpath, dlookup, lookupKey]
      exact lookupKey_foldSet_some ov a k w hnd hk

/-- C5 (witness): the override-precedence statement at the spec's concrete
example — target `object.args.x = 1`, override `(x: 2)`; the resolved tree has
`object.args.x = 2`. -/
theorem C5_witness :
    env0 "m" = some m0cls ∧
    fs0 "ov.json" = some (.dict [("object", .dict [("module", .str "m"),
        ("class", .str "C"), ("args", .dict [("x", .int 1)])])]) ∧
    (∀ kv ∈ [("x", Val.int 1)], primEntry kv = true) ∧
    (∀ kv ∈ [("x", Val.int 2)], primEntry kv = true) ∧
    nodupB ([("x", Val.int 2)].map Prod.fst) = true ∧
    ((parseRefsP fs0 env0 4 (.dict [("reference", .str "ov.json"),
        ("override", .dict [("x", .int 2)])])).map Prod.fst =
      .ok (.dict [("override", .dict [("x", .int 2)]),
        ("object", .dict [("module", .str "m"), ("class", .str "C"),
          ("args", .dict (foldSet [("x", .int 1)] [("x", .int 2)])),
          ("object_", if m0cls "C" then Val.handle "m" "C" else Val.null)]),
        ("source", .str "ov.json")])) ∧
    dpath (.dict [("override", .dict [("x", .int 2)]),
        ("object", .dict [("module", .str "m"), ("class", .str "C"),
          ("args", .dict (foldSet [("x", .int 1)] [("x", .int 2)])),
          ("object_", if m0cls "C" then Val.handle "m" "C" else Val.null)]),
        ("source", .str "ov.json")]) ["object", "args", "x"] = some (.int 2) :=
  ⟨by with_unfolding_all rfl, by with_unfolding_all rfl,
   by with_unfolding_all decide, by with_unfolding_all decide,
   by with_unfolding_all rfl,
   (C5_override_precedence fs0 env0 0 "ov.json" "m" "C" m0cls
      [("x", .int 2)] [("x", .int 1)] (by with_unfolding_all rfl)
      (by with_unfolding_all rfl) (by with_unfolding_all decide)
      (by with_unfolding_all decide) (by with_unfolding_all rfl)).1,
   (C5_override_precedence fs0 env0 0 "ov.json" "m" "C" m0cls
      [("x", .int 2)] [("x", .int 1)] (by with_unfolding_all rfl)
      (by with_unfolding_all rfl) (by with_unfolding_all decide)
      (by with_unfolding_all decide) (by with_unfolding_all rfl)).2
     "x" (.int 2) (by with_unfolding_all rfl)⟩

theorem parseObject_ok (env : String → Option (String → Bool))
    (d d' : List (String × Val)) (h : parseObject env d = .ok d') :
    ∃ hv, d' = setKey d "object_" hv ∧ (∀ dd, hv ≠ Val.dict dd) := by
  simp only [parseObject] at h
  cases h1 : getKey "module" d with
  | error e => rw [h1] at h; simp at h
  | ok mv =>
      rw [h1] at h
      simp only [except_bind_ok] at h
      cases h2 : getKey "class" d with
      | error e => rw [h2] at h; simp at h
      | ok cv =>
          rw [h2] at h
          simp only [except_bind_ok] at h
          cases h3 : asStr mv with
          | error e => rw [h3] at h; simp at h
          | ok m =>
              rw [h3] at h
              simp only [except_bind_ok] at h
              cases h4 : env m with
              | none => rw [h4] at h; simp at h
              | some M =>
                  rw [h4] at h
                  simp only [except_bind_ok] at h
                  cases h5 : asStr cv with
                  | error e => rw [h5] at h; simp at h
                  | ok c =>
                      rw [h5] at h
                      simp only [except_bind_ok] at h
                      injection h with h
                      exact ⟨_, h.symm, by cases hMc : M c <;> simp [hMc]⟩

theorem stripHL_setKey_obj (l : List (String × Val)) (hv : Val) :
    stripHL (setKey l "object_" hv) = stripHL l := by
  induction l with
  | nil => simp [setKey, stripHL]
  | cons kv rest ih =>
      obtain ⟨k, v⟩ := kv
      by_cases h2 : k = "object_"
      · subst h2
        simp [setKey, stripHL]
      · simp [setKey, h2, stripHL, ih]

theorem parseEntry_vin_of_not_dict (fs : String → Option Val)
    (env : String → Option (String → Bool)) (rec : Val → Except Err (Val × Val))
    (cfg : List (String × Val)) (k : String) (v : Val)
    (out out₁ : List (String × Val)) (vin : Val)
    (hnd : ∀ d, v ≠ Val.dict d)
    (h : parseEntry fs env rec cfg k v out = .ok (out₁, vin)) : vin = v := by
  simp only [parseEntry] at h
  by_cases hc : k.startsWith "__"
  · rw [if_pos hc] at h
    injection h with h
    exact ((Prod.mk.injEq _ _ _ _).mp h).2.symm
  · rw [if_neg hc] at h
    have hstep : (if k = "reference" then (do
        let tmp ← loadJsonFile fs v
        let ovv ← getKey "override" cfg
        let ov ← asEntries ovv
        let tmp₁ ← applyOverrides tmp ov
        let (tmp₂, _) ← rec tmp₁
        let t ← asEntries tmp₂
        .ok (removeKey (setKey (foldSet out t) "source" v) "reference", v))
      else (.ok (out, v) : Except Err (List (String × Val) × Val))) =
        .ok (out₁, vin) := by
      cases v with
      | dict d => exact absurd rfl (hnd d)
      | null => exact h
      | bool b => exact h
      | int i => exact h
      | str s => exact h
      | list xs => exact h
      | handle m c => exact h
      | inst i m c a => exact h
    clear h
    by_cases hk : k = "reference"
    · rw [if_pos hk] at hstep
      cases h1 : loadJsonFile fs v with
      | error e => rw [h1] at hstep; simp at hstep
      | ok tmp =>
          rw [h1] at hstep
          simp only [except_bind_ok] at hstep
          cases h2 : getKey "override" cfg with
          | error e => rw [h2] at hstep; simp at hstep
          | ok ovv =>
              rw [h2] at hstep
              simp only [except_bind_ok] at hstep
              cases h3 : asEntries ovv with
              | error e => rw [h3] at hstep; simp at hstep
              | ok ov =>
                  rw [h3] at hstep
                  simp only [except_bind_ok] at hstep
                  cases h4 : applyOverrides tmp ov with
                  | error e => rw [h4] at hstep; simp at hstep
                  | ok tmp₁ =>
                      rw [h4] at hstep
                      simp only [except_bind_ok] at hstep
                      cases h5 : rec tmp₁ with
                      | error e => rw [h5] at hstep; simp at hstep
                      | ok p =>
                          rw [h5] at hstep
                          obtain ⟨tmp₂, pin⟩ := p
                          simp only [except_bind_ok] at hstep
                          cases h6 : asEntries tmp₂ with
                          | error e => rw [h6] at hstep; simp at hstep
                          | ok t =>
                              rw [h6] at hstep
                              simp only [except_bind_ok] at hstep
                              injection hstep with hstep
                              exact ((Prod.mk.injEq _ _ _ _).mp hstep).2.symm
    · rw [if_neg hk] at hstep
      injection hstep with hstep
      exact ((Prod.mk.injEq _ _ _ _).mp hstep).2.symm

theorem parseEntry_strip_input (fs : String → Option Val)
    (env : String → Option (String → Bool)) (rec : Val → Except Err (Val × Val))
    (cfg : List (String × Val))
    (hrec : ∀ v out din, rec v = .ok (out, din) → stripH din = stripH v)
    (k : String) (v : Val) (out out₁ : List (String × Val)) (vin : Val)
    (h : parseEntry fs env rec cfg k v out = .ok (out₁, vin)) :
    stripH vin = stripH v := by
  by_cases hc : k.startsWith "__"
  · simp only [parseEntry, if_pos hc] at h
    injection h with h
    rw [((Prod.mk.injEq _ _ _ _).mp h).2]
  · cases v with
    | dict d =>
        simp only [parseEntry, if_neg hc] at h
        by_cases hk : k = "object"
        · rw [if_pos hk] at h
          cases hpo : parseObject env d with
          | error e => rw [hpo] at h; simp at h
          | ok d₁ =>
              rw [hpo] at h
              simp only [except_bind_ok] at h
              cases hr : rec (.dict d₁) with
              | error e => rw [hr] at h; simp at h
              | ok p =>
                  rw [hr] at h
                  obtain ⟨r, vin'⟩ := p
                  simp only [except_bind_ok] at h
                  injection h with h
                  have hv : vin = vin' := ((Prod.mk.injEq _ _ _ _).mp h.symm).2
                  subst hv
                  obtain ⟨hv, hd₁, _⟩ := parseObject_ok env d d₁ hpo
                  subst hd₁
                  rw [hrec _ _ _ hr]
                  simp [stripH, stripHL_setKey_obj]
        · rw [if_neg hk] at h
          cases hr : rec (.dict d) with
          | error e => rw [hr] at h; simp at h
          | ok p =>
              rw [hr] at h
              obtain ⟨r, vin'⟩ := p
              simp only [except_bind_ok] at h
              injection h with h
              have hv : vin = vin' := ((Prod.mk.injEq _ _ _ _).mp h.symm).2
              subst hv
              exact hrec _ _ _ hr
    | null =>
        rw [parseEntry_vin_of_not_dict fs env rec cfg k _ out out₁ vin
          (fun d e => Val.noConfusion e) h]
    | bool b =>
        rw [parseEntry_vin_of_not_dict fs env rec cfg k _ out out₁ vin
          (fun d e => Val.noConfusion e) h]
    | int i =>
        rw [parseEntry_vin_of_not_dict fs env rec cfg k _ out out₁ vin
          (fun d e => Val.noConfusion e) h]
    | str s =>
        rw [parseEntry_vin_of_not_dict fs env rec cfg k _ out out₁ vin
          (fun d e => Val.noConfusion e) h]
    | list xs =>
        rw [parseEntry_vin_of_not_dict fs env rec cfg k _ out out₁ vin
          (fun d e => Val.noConfusion e) h]
    | handle m c =>
        rw [parseEntry_vin_of_not_dict fs env rec cfg k _ out out₁ vin
          (fun d e => Val.noConfusion e) h]
    | inst i m c a =>
        rw [parseEntry_vin_of_not_dict fs env rec cfg k _ out out₁ vin
          (fun d e => Val.noConfusion e) h]

theorem parseEntries_strip_input (fs : String → Option Val)
    (env : String → Option (String → Bool)) (rec : Val → Except Err (Val × Val))
    (cfg : List (String × Val))
    (hrec : ∀ v out din, rec v = .ok (out, din) → stripH din = stripH v) :
    ∀ todo out out' lin, parseEntries fs env rec cfg todo out = .ok (out', lin) →
      stripHL lin = stripHL todo := by
  intro todo
  induction todo with
  | nil =>
      intro out out' lin h
      simp only [parseEntries] at h
      injection h with h
      rw [← ((Prod.mk.injEq _ _ _ _).mp h).2]
  | cons kv rest ih =>
      obtain ⟨k, v⟩ := kv
      intro out out' lin h
      simp only [parseEntries] at h
      cases hpe : parseEntry fs env rec cfg k v out with
      | error e => rw [hpe] at h; simp at h
      | ok p =>
          rw [hpe] at h
          obtain ⟨p1, p2⟩ := p
          simp only [except_bind_ok] at h
          cases hrest : parseEntries fs env rec cfg rest p1 with
          | error e => rw [hrest] at h; simp at h
          | ok q =>
              rw [hrest] at h
              obtain ⟨q1, q2⟩ := q
              simp only [except_bind_ok] at h
              injection h with h
              have hlin : lin = (k, p2) :: q2 :=
                ((Prod.mk.injEq _ _ _ _).mp h.symm).2
              subst hlin
              have hv := parseEntry_strip_input fs env rec cfg hrec k v out p1 p2 hpe
              have hr := ih p1 q1 q2 hrest
              by_cases hk : k = "object_" <;> simp [stripHL, hk, hv, hr]

theorem parseRefsP_strip_input (fs : String → Option Val)
    (env : String → Option (String → Bool)) :
    ∀ (n : Nat) (v out din : Val),
      parseRefsP fs env n v = .ok (out, din) → stripH din = stripH v := by
  intro n
  induction n with
  | zero =>
      intro v out din h
      simp [parseRefsP] at h
  | succ n ih =>
      intro v out din h
      cases v with
      | dict l =>
          rw [parseRefsP_dict_succ] at h
          cases hpe : parseEntries fs env (fun v => parseRefsP fs env n v) l l l with
          | error e => rw [hpe] at h; simp at h
          | ok p =>
              rw [hpe] at h
              obtain ⟨p1, p2⟩ := p
              simp only [except_bind_ok] at h
              injection h with h
              have hdin : din = .dict p2 := ((Prod.mk.injEq _ _ _ _).mp h.symm).2
              subst hdin
              have := parseEntries_strip_input fs env _ l
                (fun v out din hv => ih v out din hv) l l p1 p2 hpe
              simp [stripH, this]
      | null => simp [parseRefsP] at h
      | bool b => simp [parseRefsP] at h
      | int i => simp [parseRefsP] at h
      | str s => simp [parseRefsP] at h
      | list xs => simp [parseRefsP] at h
      | handle m c => simp [parseRefsP] at h
      | inst i m c a => simp [parseRefsP] at h

/-- C2 (amended): the resolver is not pure, but its only effect on the input is
attaching or overwriting bound-handle (`object_`) entries in place: for every
successful resolution, erasing `object_` keys from the post-call input tree
yields exactly the `object_`-erased original input.  (Via the shallow copy in
`fetch`, this is precisely the mutation the raw snapshot undergoes.) -/
theorem C2_input_mutation_only_handles (fs : String → Option Val)
    (env : String → Option (String → Bool)) (n : Nat) (v out din : Val)
    (h : parseRefsP fs env n v = .ok (out, din)) :
    stripH din = stripH v :=
  parseRefsP_strip_input fs env n v out din h

/-- C2 (witness): the amended statement at the concrete `mutDoc` run, whose
post-call input differs from the original exactly by the attached handle. -/
theorem C2_witness :
    parseRefsP fs0 env0 5 mutDoc =
      .ok (.dict [("object", .dict [("module", .str "m"), ("class", .str "C"),
            ("args", .dict []), ("object_", .handle "m" "C")])],
          .dict [("object", .dict [("module", .str "m"), ("class", .str "C"),
            ("args", .dict []), ("object_", .handle "m" "C")])]) ∧
    stripH (.dict [("object", .dict [("module", .str "m"), ("class", .str "C"),
        ("args", .dict []), ("object_", .handle "m" "C")])]) = stripH mutDoc :=
  ⟨by with_unfolding_all rfl,
   C2_input_mutation_only_handles fs0 env0 5 mutDoc
     (.dict [("object", .dict [("module", .str "m"), ("class", .str "C"),
        ("args", .dict []), ("object_", .handle "m" "C")])])
     (.dict [("object", .dict [("module", .str "m"), ("class", .str "C"),
        ("args", .dict []), ("object_", .handle "m" "C")])])
     (by with_unfolding_all rfl)⟩

theorem npGo_false_iff (l : List (String × Val)) :
    npGo l = .ok false ↔ ∀ kv ∈ l, npEntryOK kv := by
  induction l with
  | nil => simp [npGo]
  | cons kv rest ih =>
      obtain ⟨k, v⟩ := kv
      simp only [List.mem_cons, forall_eq_or_imp]
      by_cases hk1 : k = "reference"
      · simp [npGo, hk1, npEntryOK]
      · by_cases hk2 : k = "object"
        · cases hco : containsObjKey v with
          | error e =>
              simp only [npGo, if_neg hk1, if_pos hk2, hco, except_bind_error]
              constructor
              · intro h; exact absurd h (by simp)
              · intro h
                have := h.1.2.1 hk2
                rw [hco] at this
                exact absurd this (by simp)
          | ok b =>
              cases b with
              | false =>
                  simp only [npGo, if_neg hk1, if_pos hk2, hco, except_bind_ok]
                  constructor
                  · intro h; exact absurd h (by simp)
                  · intro h
                    have := h.1.2.1 hk2
                    rw [hco] at this
                    exact absurd this (by simp)
              | true =>
                  cases v with
                  | dict d =>
                      simp only [npGo, if_neg hk1, if_pos hk2, hco,
                        except_bind_ok, decide_eq_true_eq, needsParsingB]
                      cases hnp : npGo d with
                      | error e =>
                          simp only [except_bind_error]
                          constructor
                          · intro h
                            simp at h
                          · intro h
                            have := h.1.2.2 d rfl
                            rw [hnp] at this
                            exact absurd this (by simp)
                      | ok b' =>
                          cases b' with
                          | true =>
                              simp only [except_bind_ok, if_true]
                              constructor
                              · intro h
                                simp at h
                              · intro h
                                have := h.1.2.2 d rfl
                                rw [hnp] at this
                                exact absurd this (by simp)
                          | false =>
                              simp only [except_bind_ok,
                                if_neg (by simp : ¬(true = false)),
                                if_neg (by simp : ¬(false = true))]
                              rw [ih]
                              constructor
                              · intro h
                                refine ⟨⟨hk1, fun _ => hco, ?_⟩, h⟩
                                intro d' hd
                                cases hd
                                exact hnp
                              · intro h
                                exact h.2
                  | null =>
                      simp only [npGo, if_neg hk1, if_pos hk2, hco,
                        except_bind_ok, decide_eq_true_eq]
                      simp only [if_neg (by simp : ¬(true = false))]
                      rw [ih]
                      constructor
                      · intro h
                        exact ⟨⟨hk1, fun _ => hco, fun d hd => Val.noConfusion hd⟩, h⟩
                      · intro h
                        exact h.2
                  | bool b2 =>
                      simp only [npGo, if_neg hk1, if_pos hk2, hco,
                        except_bind_ok, decide_eq_true_eq]
                      simp only [if_neg (by simp : ¬(true = false))]
                      rw [ih]
                      constructor
                      · intro h
                        exact ⟨⟨hk1, fun _ => hco, fun d hd => Val.noConfusion hd⟩, h⟩
                      · intro h
                        exact h.2
                  | int i =>
                      simp only [npGo, if_neg hk1, if_pos hk2, hco,
                        except_bind_ok, decide_eq_true_eq]
                      simp only [if_neg (by simp : ¬(true = false))]
                      rw [ih]
                      constructor
                      · intro h
                        exact ⟨⟨hk1, fun _ => hco, fun d hd => Val.noConfusion hd⟩, h⟩
                      · intro h
                        exact h.2
                  | str s =>
                      simp only [npGo, if_neg hk1, if_pos hk2, hco,
                        except_bind_ok, decide_eq_true_eq]
                      simp only [if_neg (by simp : ¬(true = false))]
                      rw [ih]
                      constructor
                      · intro h
                        exact ⟨⟨hk1, fun _ => hco, fun d hd => Val.noConfusion hd⟩, h⟩
                      · intro h
                        exact h.2
                  | list xs =>
                      simp only [npGo, if_neg hk1, if_pos hk2, hco,
                        except_bind_ok, decide_eq_true_eq]
                      simp only [if_neg (by simp : ¬(true = false))]
                      rw [ih]
                      constructor
                      · intro h
                        exact ⟨⟨hk1, fun _ => hco, fun d hd => Val.noConfusion hd⟩, h⟩
                      · intro h
                        exact h.2
                  | handle m c =>
                      simp only [npGo, if_neg hk1, if_pos hk2, hco,
                        except_bind_ok, decide_eq_true_eq]
                      simp only [if_neg (by simp : ¬(true = false))]
                      rw [ih]
                      constructor
                      · intro h
                        exact ⟨⟨hk1, fun _ => hco, fun d hd => Val.noConfusion hd⟩, h⟩
                      · intro h
                        exact h.2
                  | inst i m c a =>
                      simp only [npGo, if_neg hk1, if_pos hk2, hco,
                        except_bind_ok, decide_eq_true_eq]
                      simp only [if_neg (by simp : ¬(true = false))]
                      rw [ih]
                      constructor
                      · intro h
                        exact ⟨⟨hk1, fun _ => hco, fun d hd => Val.noConfusion hd⟩, h⟩
                      · intro h
                        exact h.2
        · -- k is neither "reference" nor "object"
          cases v with
          | dict d =>
              simp only [npGo, if_neg hk1, if_neg hk2, except_bind_ok,
                needsParsingB]
              simp only [if_neg (by simp : ¬(false = true))]
              cases hnp : npGo d with
              | error e =>
                  simp only [except_bind_error]
                  constructor
                  · intro h
                    simp at h
                  · intro h
                    have := h.1.2.2 d rfl
                    rw [hnp] at this
                    exact absurd this (by simp)
              | ok b' =>
                  cases b' with
                  | true =>
                      simp only [except_bind_ok, if_true]
                      constructor
                      · intro h
                        simp at h
                      · intro h
                        have := h.1.2.2 d rfl
                        rw [hnp] at this
                        exact absurd this (by simp)
                  | false =>
                      simp only [except_bind_ok,
                        if_neg (by simp : ¬(false = true))]
                      rw [ih]
                      constructor
                      · intro h
                        refine ⟨⟨hk1, fun hk => absurd hk hk2, ?_⟩, h⟩
                        intro d' hd
                        cases hd
                        exact hnp
                      · intro h
                        exact h.2
          | null =>
              simp only [npGo, if_neg hk1, if_neg hk2, except_bind_ok]
              simp only [if_neg (by simp : ¬(false = true))]
              rw [ih]
              constructor
              · intro h
                exact ⟨⟨hk1, fun hk => absurd hk hk2,
                  fun d hd => Val.noConfusion hd⟩, h⟩
              · intro h
                exact h.2
          | bool b2 =>
              simp only [npGo, if_neg hk1, if_neg hk2, except_bind_ok]
              simp only [if_neg (by simp : ¬(false = true))]
              rw [ih]
              constructor
              · intro h
                exact ⟨⟨hk1, fun hk => absurd hk hk2,
                  fun d hd => Val.noConfusion hd⟩, h⟩
              · intro h
                exact h.2
          | int i =>
              simp only [npGo, if_neg hk1, if_neg hk2, except_bind_ok]
              simp only [if_neg (by simp : ¬(false = true))]
              rw [ih]
              constructor
              · intro h
                exact ⟨⟨hk1, fun hk => absurd hk hk2,
                  fun d hd => Val.noConfusion hd⟩, h⟩
              · intro h
                exact h.2
          | str s =>
              simp only [npGo, if_neg hk1, if_neg hk2, except_bind_ok]
              simp only [if_neg (by simp : ¬(false = true))]
              rw [ih]
              constructor
              · intro h
                exact ⟨⟨hk1, fun hk => absurd hk hk2,
                  fun d hd => Val.noConfusion hd⟩, h⟩
              · intro h
                exact h.2
          | list xs =>
              simp only [npGo, if_neg hk1, if_neg hk2, except_bind_ok]
              simp only [if_neg (by simp : ¬(false = true))]
              rw [ih]
              constructor
              · intro h
                exact ⟨⟨hk1, fun hk => absurd hk hk2,
                  fun d hd => Val.noConfusion hd⟩, h⟩
              · intro h
                exact h.2
          | handle m c =>
              simp only [npGo, if_neg hk1, if_neg hk2, except_bind_ok]
              simp only [if_neg (by simp : ¬(false = true))]
              rw [ih]
              constructor
              · intro h
                exact ⟨⟨hk1, fun hk => absurd hk hk2,
                  fun d hd => Val.noConfusion hd⟩, h⟩
              · intro h
                exact h.2
          | inst i m c a =>
              simp only [npGo, if_neg hk1, if_neg hk2, except_bind_ok]
              simp only [if_neg (by simp : ¬(false = true))]
              rw [ih]
              constructor
              · intro h
                exact ⟨⟨hk1, fun hk => absurd hk hk2,
                  fun d hd => Val.noConfusion hd⟩, h⟩
              · intro h
                exact h.2

theorem setKey_mem (l : List (String × Val)) (k₀ : String) (v₀ : Val) :
    ∀ kv ∈ setKey l k₀ v₀, kv ∈ l ∨ kv = (k₀, v₀) := by
  induction l with
  | nil =>
      intro kv hm
      simp [setKey] at hm
      exact Or.inr (by simp [hm])
  | cons kv' rest ih =>
      obtain ⟨k', w⟩ := kv'
      intro kv hm
      by_cases h2 : k' = k₀
      · simp only [setKey, if_pos h2, List.mem_cons] at hm
        rcases hm with hm | hm
        · exact Or.inr hm
        · exact Or.inl (List.mem_cons_of_mem _ hm)
      · simp only [setKey, if_neg h2, List.mem_cons] at hm
        rcases hm with hm | hm
        · exact Or.inl (by simp [hm])
        · rcases ih _ hm with h | h
          · exact Or.inl (List.mem_cons_of_mem _ h)
          · exact Or.inr h

theorem npGo_false_setKey_obj (d : List (String × Val)) (hv : Val)
    (hnp : npGo d = .ok false) (hnd : ∀ dd, hv ≠ Val.dict dd) :
    npGo (setKey d "object_" hv) = .ok false := by
  rw [npGo_false_iff] at hnp ⊢
  intro kv hm
  rcases setKey_mem d "object_" hv kv hm with h | h
  · exact hnp _ h
  · subst h
    refine ⟨?_, ?_, ?_⟩
    · simp
    · intro he
      simp at he
    · intro dd hd
      exact absurd hd (hnd dd)

theorem keyMem_of_mem (l : List (String × Val)) (k : String) (v : Val)
    (hm : (k, v) ∈ l) : keyMem k (l.map Prod.fst) = true := by
  induction l with
  | nil => simp at hm
  | cons kv rest ih =>
      rcases List.mem_cons.mp hm with h | h
      · simp [keyMem, ← h]
      · simp [keyMem, ih h]

theorem lookup_of_mem_nodup (l : List (String × Val)) (k : String) (v : Val)
    (hm : (k, v) ∈ l) (hnd : nodupB (l.map Prod.fst) = true) :
    lookupKey k l = some v := by
  induction l with
  | nil => simp at hm
  | cons kv rest ih =>
      obtain ⟨k', w⟩ := kv
      simp only [List.map, nodupB, Bool.and_eq_true, Bool.not_eq_true'] at hnd
      rcases List.mem_cons.mp hm with h | h
      · obtain ⟨h1, h2⟩ := Prod.mk.injEq .. ▸ h
        simp [lookupKey, h1.symm, h2]
      · by_cases h2 : k' = k
        · subst h2
          rw [keyMem_of_mem rest k' v h] at hnd
          exact absurd hnd.1 (by simp)
        · simp [lookupKey, h2, ih h hnd.2]

theorem lookupKey_stripHL (l : List (String × Val)) (k : String)
    (h : k ≠ "object_") :
    lookupKey k (stripHL l) = (lookupKey k l).map stripH := by
  induction l with
  | nil => simp [stripHL, lookupKey]
  | cons kv rest ih =>
      obtain ⟨k', v⟩ := kv
      by_cases h2 : k' = "object_"
      · subst h2
        have h3 : ¬("object_" = k) := fun e => h e.symm
        simp [stripHL, lookupKey, h3, ih]
      · by_cases h3 : k' = k
        · subst h3
          simp [stripHL, h2, lookupKey]
        · simp [stripHL, h2, lookupKey, h3, ih]

theorem stripHL_setKey_of_strip_eq (l : List (String × Val)) (k : String)
    (r w : Val) (hlk : lookupKey k l = some w) (hs : stripH r = stripH w) :
    stripHL (setKey l k r) = stripHL l := by
  induction l with
  | nil => simp [lookupKey] at hlk
  | cons kv rest ih =>
      obtain ⟨k', v⟩ := kv
      by_cases h2 : k' = k
      · subst h2
        simp only [lookupKey, if_pos rfl] at hlk
        cases hlk
        by_cases h3 : k' = "object_"
        · subst h3
          simp [setKey, stripHL]
        · simp [setKey, stripHL, h3, hs]
      · simp only [lookupKey, if_neg h2] at hlk
        by_cases h3 : k' = "object_"
        · subst h3
          have h4 : ¬("object_" = k) := h2
          simp [setKey, h4, stripHL, ih hlk]
        · simp [setKey, h2, stripHL, h3, ih hlk]

theorem stripHL_setKey_preserve (cfg out : List (String × Val)) (k : String)
    (r v : Val) (hout : stripHL out = stripHL cfg)
    (hcv : lookupKey k cfg = some v) (hs : stripH r = stripH v) :
    stripHL (setKey out k r) = stripHL out := by
  by_cases hk : k = "object_"
  · subst hk
    exact stripHL_setKey_obj out r
  · have h1 : lookupKey k (stripHL out) = (lookupKey k out).map stripH :=
      lookupKey_stripHL out k hk
    rw [hout, lookupKey_stripHL cfg k hk, hcv] at h1
    cases hlo : lookupKey k out with
    | none => rw [hlo] at h1; simp at h1
    | some w =>
        rw [hlo] at h1
        simp only [Option.map_some'] at h1
        have hw : stripH w = stripH v := (Option.some.inj h1).symm
        exact stripHL_setKey_of_strip_eq out k r w hlo (hs.trans hw.symm)

theorem wfsL_mem (l : List (String × Val)) (hw : wfsL l = true) :
    ∀ kv ∈ l, wfs kv.2 = true := by
  induction l with
  | nil => simp
  | cons kv rest ih =>
      obtain ⟨k, v⟩ := kv
      simp only [wfsL, Bool.and_eq_true] at hw
      intro kv hm
      rcases List.mem_cons.mp hm with h | h
      · simp [h, hw.1]
      · exact ih hw.2 _ h

theorem wfsL_setKey (l : List (String × Val)) (k₀ : String) (v₀ : Val)
    (hl : wfsL l = true) (h₀ : wfs v₀ = true) :
    wfsL (setKey l k₀ v₀) = true := by
  induction l with
  | nil => simp [setKey, wfsL, h₀]
  | cons kv rest ih =>
      obtain ⟨k', w⟩ := kv
      simp only [wfsL, Bool.and_eq_true] at hl
      by_cases h2 : k' = k₀
      · simp [setKey, h2, wfsL, h₀, hl.2]
      · simp [setKey, h2, wfsL, hl.1, ih hl.2]

theorem keyMem_setKey (l : List (String × Val)) (k₀ x : String) (v₀ : Val) :
    keyMem x ((setKey l k₀ v₀).map Prod.fst) =
      (keyMem x (l.map Prod.fst) || (k₀ == x)) := by
  induction l with
  | nil => simp [setKey, keyMem]
  | cons kv rest ih =>
      obtain ⟨k', w⟩ := kv
      by_cases h2 : k' = k₀
      · subst h2
        simp only [setKey, if_pos rfl, List.map, keyMem]
        cases hx : (k' == x) <;> simp [hx, keyMem]
      · simp only [setKey, if_neg h2, List.map, keyMem, ih]
        cases hx : (k' == x) <;> simp [hx, Bool.or_assoc]

theorem nodupB_setKey (l : List (String × Val)) (k₀ : String) (v₀ : Val)
    (hnd : nodupB (l.map Prod.fst) = true) :
    nodupB ((setKey l k₀ v₀).map Prod.fst) = true := by
  induction l with
  | nil => simp [setKey, nodupB, keyMem]
  | cons kv rest ih =>
      obtain ⟨k', w⟩ := kv
      simp only [List.map, nodupB, Bool.and_eq_true, Bool.not_eq_true'] at hnd
      by_cases h2 : k' = k₀
      · subst h2
        simp [setKey, nodupB, hnd.1, hnd.2]
      · simp only [setKey, if_neg h2, List.map, nodupB, Bool.and_eq_true,
          Bool.not_eq_true']
        refine ⟨?_, ih hnd.2⟩
        rw [keyMem_setKey]
        simp [hnd.1, (by simpa using Ne.symm h2 : ¬(k₀ = k'))]

theorem wfs_setKey_obj (d : List (String × Val)) (hv : Val)
    (hw : wfs (.dict d) = true) (hhv : wfs hv = true) :
    wfs (.dict (setKey d "object_" hv)) = true := by
  simp only [wfs, Bool.and_eq_true] at hw ⊢
  exact ⟨nodupB_setKey d _ _ hw.1, wfsL_setKey d _ _ hw.2 hhv⟩

theorem wfs_of_not_dict (hv : Val) (h : ∀ dd, hv ≠ Val.dict dd) :
    wfs hv = true := by
  cases hv with
  | dict d => exact absurd rfl (h d)
  | null => rfl
  | bool b => rfl
  | int i => rfl
  | str s => rfl
  | list xs => rfl
  | handle m c => rfl
  | inst i m c a => rfl

theorem parseEntry_out_nondict (fs : String → Option Val)
    (env : String → Option (String → Bool)) (rec : Val → Except Err (Val × Val))
    (cfg : List (String × Val)) (k : String) (v : Val)
    (out out₁ : List (String × Val)) (vin : Val)
    (hnd : ∀ d, v ≠ Val.dict d) (hkr : k ≠ "reference")
    (h : parseEntry fs env rec cfg k v out = .ok (out₁, vin)) :
    out₁ = out := by
  simp only [parseEntry] at h
  by_cases hc : k.startsWith "__"
  · rw [if_pos hc] at h
    injection h with h
    exact ((Prod.mk.injEq _ _ _ _).mp h).1.symm
  · rw [if_neg hc] at h
    cases v with
    | dict d => exact absurd rfl (hnd d)
    | null =>
        rw [if_neg hkr] at h
        injection h with h
        exact ((Prod.mk.injEq _ _ _ _).mp h).1.symm
    | bool b =>
        rw [if_neg hkr] at h
        injection h with h
        exact ((Prod.mk.injEq _ _ _ _).mp h).1.symm
    | int i =>
        rw [if_neg hkr] at h
        injection h with h
        exact ((Prod.mk.injEq _ _ _ _).mp h).1.symm
    | str s =>
        rw [if_neg hkr] at h
        injection h with h
        exact ((Prod.mk.injEq _ _ _ _).mp h).1.symm
    | list xs =>
        rw [if_neg hkr] at h
        injection h with h
        exact ((Prod.mk.injEq _ _ _ _).mp h).1.symm
    | handle m c =>
        rw [if_neg hkr] at h
        injection h with h
        exact ((Prod.mk.injEq _ _ _ _).mp h).1.symm
    | inst i m c a =>
        rw [if_neg hkr] at h
        injection h with h
        exact ((Prod.mk.injEq _ _ _ _).mp h).1.symm

theorem parseEntry_strip_out_step (fs : String → Option Val)
    (env : String → Option (String → Bool)) (rec : Val → Except Err (Val × Val))
    (cfg : List (String × Val))
    (hrec : ∀ v out din, wfs v = true → needsParsingB v = .ok false →
        rec v = .ok (out, din) → stripH out = stripH v)
    (k : String) (v : Val) (out out₁ : List (String × Val)) (vin : Val)
    (hk : npEntryOK (k, v)) (hwv : wfs v = true)
    (hout : stripHL out = stripHL cfg) (hcv : lookupKey k cfg = some v)
    (h : parseEntry fs env rec cfg k v out = .ok (out₁, vin)) :
    stripHL out₁ = stripHL cfg := by
  by_cases hc : k.startsWith "__"
  · simp only [parseEntry, if_pos hc] at h
    injection h with h
    rw [← ((Prod.mk.injEq _ _ _ _).mp h).1]
    exact hout
  · cases v with
    | dict d =>
        simp only [parseEntry, if_neg hc] at h
        by_cases hko : k = "object"
        · rw [if_pos hko] at h
          cases hpo : parseObject env d with
          | error e => rw [hpo] at h; simp at h
          | ok d₁ =>
              rw [hpo] at h
              simp only [except_bind_ok] at h
              cases hr : rec (.dict d₁) with
              | error e => rw [hr] at h; simp at h
              | ok p =>
                  rw [hr] at h
                  obtain ⟨r, din'⟩ := p
                  simp only [except_bind_ok] at h
                  injection h with h
                  have hO : out₁ = setKey out k r :=
                    ((Prod.mk.injEq _ _ _ _).mp h.symm).1
                  subst hO
                  obtain ⟨hv, hd₁, hvnd⟩ := parseObject_ok env d d₁ hpo
                  subst hd₁
                  have hwd₁ : wfs (.dict (setKey d "object_" hv)) = true :=
                    wfs_setKey_obj d hv hwv (wfs_of_not_dict hv hvnd)
                  have hnpd : npGo d = .ok false := hk.2.2 d rfl
                  have hnpd₁ : needsParsingB
                      (.dict (setKey d "object_" hv)) = .ok false := by
                    simp only [needsParsingB]
                    exact npGo_false_setKey_obj d hv hnpd hvnd
                  have hrs : stripH r = stripH (.dict d) := by
                    rw [hrec _ _ _ hwd₁ hnpd₁ hr]
                    simp [stripH, stripHL_setKey_obj]
                  rw [stripHL_setKey_preserve cfg out k r (.dict d) hout hcv hrs]
                  exact hout
        · rw [if_neg hko] at h
          cases hr : rec (.dict d) with
          | error e => rw [hr] at h; simp at h
          | ok p =>
              rw [hr] at h
              obtain ⟨r, din'⟩ := p
              simp only [except_bind_ok] at h
              injection h with h
              have hO : out₁ = setKey out k r :=
                ((Prod.mk.injEq _ _ _ _).mp h.symm).1
              subst hO
              have hnpd : needsParsingB (.dict d) = .ok false := by
                simp only [needsParsingB]
                exact hk.2.2 d rfl
              have hrs : stripH r = stripH (.dict d) :=
                hrec _ _ _ hwv hnpd hr
              rw [stripHL_setKey_preserve cfg out k r (.dict d) hout hcv hrs]
              exact hout
    | null =>
        rw [parseEntry_out_nondict fs env rec cfg k _ out out₁ vin
          (fun d e => Val.noConfusion e) hk.1 h]
        exact hout
    | bool b =>
        rw [parseEntry_out_nondict fs env rec cfg k _ out out₁ vin
          (fun d e => Val.noConfusion e) hk.1 h]
        exact hout
    | int i =>
        rw [parseEntry_out_nondict fs env rec cfg k _ out out₁ vin
          (fun d e => Val.noConfusion e) hk.1 h]
        exact hout
    | str s =>
        rw [parseEntry_out_nondict fs env rec cfg k _ out out₁ vin
          (fun d e => Val.noConfusion e) hk.1 h]
        exact hout
    | list xs =>
        rw [parseEntry_out_nondict fs env rec cfg k _ out out₁ vin
          (fun d e => Val.noConfusion e) hk.1 h]
        exact hout
    | handle m c =>
        rw [parseEntry_out_nondict fs env rec cfg k _ out out₁ vin
          (fun d e => Val.noConfusion e) hk.1 h]
        exact hout
    | inst i m c a =>
        rw [parseEntry_out_nondict fs env rec cfg k _ out out₁ vin
          (fun d e => Val.noConfusion e) hk.1 h]
        exact hout

theorem parseEntries_strip_out (fs : String → Option Val)
    (env : String → Option (String → Bool)) (rec : Val → Except Err (Val × Val))
    (cfg : List (String × Val))
    (hrec : ∀ v out din, wfs v = true → needsParsingB v = .ok false →
        rec v = .ok (out, din) → stripH out = stripH v)
    (hnd : nodupB (cfg.map Prod.fst) = true)
    (hent : ∀ kv ∈ cfg, npEntryOK kv ∧ wfs kv.2 = true) :
    ∀ todo out out' lin, (∀ kv ∈ todo, kv ∈ cfg) →
      stripHL out = stripHL cfg →
      parseEntries fs env rec cfg todo out = .ok (out', lin) →
      stripHL out' = stripHL cfg := by
  intro todo
  induction todo with
  | nil =>
      intro out out' lin _ hout h
      simp only [parseEntries] at h
      injection h with h
      rw [← ((Prod.mk.injEq _ _ _ _).mp h).1]
      exact hout
  | cons kv rest ih =>
      obtain ⟨k, v⟩ := kv
      intro out out' lin hmem hout h
      simp only [parseEntries] at h
      cases hpe : parseEntry fs env rec cfg k v out with
      | error e => rw [hpe] at h; simp at h
      | ok p =>
          rw [hpe] at h
          obtain ⟨p1, p2⟩ := p
          simp only [except_bind_ok] at h
          cases hrest : parseEntries fs env rec cfg rest p1 with
          | error e => rw [hrest] at h; simp at h
          | ok q =>
              rw [hrest] at h
              obtain ⟨q1, q2⟩ := q
              simp only [except_bind_ok] at h
              injection h with h
              have hq : q1 = out' := ((Prod.mk.injEq _ _ _ _).mp h).1
              have hhead : (k, v) ∈ cfg := hmem _ (List.mem_cons_self _ _)
              have hstep := parseEntry_strip_out_step fs env rec cfg hrec k v
                out p1 p2 (hent _ hhead).1 (hent _ hhead).2 hout
                (lookup_of_mem_nodup cfg k v hhead hnd) hpe
              rw [← hq]
              exact ih p1 q1 q2
                (fun kv hk => hmem _ (List.mem_cons_of_mem _ hk)) hstep hrest

theorem parseRefsP_strip_out (fs : String → Option Val)
    (env : String → Option (String → Bool)) :
    ∀ (n : Nat) (v out din : Val), wfs v = true →
      needsParsingB v = .ok false →
      parseRefsP fs env n v = .ok (out, din) → stripH out = stripH v := by
  intro n
  induction n with
  | zero =>
      intro v out din _ _ h
      simp [parseRefsP] at h
  | succ n ih =>
      intro v out din hwf hnp h
      cases v with
      | dict l =>
          rw [parseRefsP_dict_succ] at h
          cases hpe : parseEntries fs env (fun v => parseRefsP fs env n v) l l l with
          | error e => rw [hpe] at h; simp at h
          | ok p =>
              rw [hpe] at h
              obtain ⟨p1, p2⟩ := p
              simp only [except_bind_ok] at h
              injection h with h
              have hO : out = .dict p1 := ((Prod.mk.injEq _ _ _ _).mp h.symm).1
              subst hO
              have hnp' : npGo l = .ok false := by simpa [needsParsingB] using hnp
              simp only [wfs, Bool.and_eq_true] at hwf
              have hent : ∀ kv ∈ l, npEntryOK kv ∧ wfs kv.2 = true :=
                fun kv hm => ⟨(npGo_false_iff l).mp hnp' _ hm,
                  wfsL_mem l hwf.2 _ hm⟩
              have := parseEntries_strip_out fs env _ l
                (fun v out din a b c => ih v out din a b c) hwf.1 hent
                l l p1 p2 (fun kv hk => hk) rfl hpe
              simp [stripH, this]
      | null => simp [parseRefsP] at h
      | bool b => simp [parseRefsP] at h
      | int i => simp [parseRefsP] at h
      | str s => simp [parseRefsP] at h
      | list xs => simp [parseRefsP] at h
      | handle m c => simp [parseRefsP] at h
      | inst i m c a => simp [parseRefsP] at h

/-- C9 (counterexample): the claim "once the fixed-point check returns false,
resolving again reproduces the input (modulo source keys)" is false as stated —
the document `(object: (object_: null))` makes `does_this_still_need_parsing`
return false, yet running the resolver on it raises `KeyError('module')`
(re-binding re-runs `parse_object`, which needs the `module` key), so no tree at
all is produced. -/
theorem C9_counterexample :
    needsParsingB (.dict [("object", .dict [("object_", .null)])]) =
      .ok false ∧
    parseRefsP fs0 env0 5 (.dict [("object", .dict [("object_", .null)])]) =
      .error (.keyErr "module") := by
  constructor
  · with_unfolding_all rfl
  · with_unfolding_all rfl

/-- C9 (amended): for every well-formed document (duplicate-free dict keys, as
`json.load` guarantees) on which `does_this_still_need_parsing` returns false
and on which the resolver succeeds, the result is structurally identical to the
input except for the values of bound-handle (`object_`) entries, which are
recomputed in place — stated as equality of the `object_`-erased trees; in
particular no `source` key is added and no other entry changes. -/
theorem C9_stable_resolve_identity (fs : String → Option Val)
    (env : String → Option (String → Bool)) (n : Nat) (v out din : Val)
    (hwf : wfs v = true) (hnp : needsParsingB v = .ok false)
    (h : parseRefsP fs env n v = .ok (out, din)) :
    stripH out = stripH v :=
  parseRefsP_strip_out fs env n v out din hwf hnp h

/-- C9 (witness): the amended statement at a concrete fully-bound document,
whose re-resolution reproduces it exactly. -/
theorem C9_witness :
    wfs (.dict [("object", .dict [("module", .str "m"), ("class", .str "C"),
        ("args", .dict []), ("object_", .handle "m" "C")])]) = true ∧
    needsParsingB (.dict [("object", .dict [("module", .str "m"),
        ("class", .str "C"), ("args", .dict []),
        ("object_", .handle "m" "C")])]) = .ok false ∧
    parseRefsP fs0 env0 5 (.dict [("object", .dict [("module", .str "m"),
        ("class", .str "C"), ("args", .dict []),
        ("object_", .handle "m" "C")])]) =
      .ok (.dict [("object", .dict [("module", .str "m"), ("class", .str "C"),
          ("args", .dict []), ("object_", .handle "m" "C")])],
        .dict [("object", .dict [("module", .str "m"), ("class", .str "C"),
          ("args", .dict []), ("object_", .handle "m" "C")])]) ∧
    stripH (.dict [("object", .dict [("module", .str "m"), ("class", .str "C"),
        ("args", .dict []), ("object_", .handle "m" "C")])]) =
      stripH (.dict [("object", .dict [("module", .str "m"), ("class", .str "C"),
        ("args", .dict []), ("object_", .handle "m" "C")])]) :=
  ⟨by with_unfolding_all rfl, by with_unfolding_all rfl,
   by with_unfolding_all rfl,
   C9_stable_resolve_identity fs0 env0 5 _ _
     (.dict [("object", .dict [("module", .str "m"), ("class", .str "C"),
        ("args", .dict []), ("object_", .handle "m" "C")])])
     (by with_unfolding_all rfl) (by with_unfolding_all rfl)
     (by with_unfolding_all rfl)⟩
